import Mathlib

/-!
# QuranLab: the Jannah Points progression engine

A shallow embedding of `QuranLab/src/components/JannahPointsCalculator.js`.

* JavaScript numbers that hold accuracies and multipliers are exact rationals (`ℚ`);
  point totals are integers (`Int`), levels are naturals.
* The Firestore document `jannah-points/<userId>` is the record `UserDoc`; every
  `updateDoc` is a function on it (`increment(points)` adds to the stored total).
* The React component is a function of one render: the values of `totalPoints`,
  `currentLevel`, `recentEarnings` and `milestones` that the handlers read are the
  constants captured by the closures of that render (`Render`).  They do not change
  while an `async` handler of that render is running, whatever is written to the store.
* `awardPoints` and `levelUp` call each other; the embedding runs them with a call budget
  and returns the world reached when the budget is used up (`Outcome.running`).
* Timestamps (`new Date()`) and animation flags are not part of the model.
-/

namespace QuranLab

/-! ## Static tables -/

/-- One row of `LEVEL_THRESHOLDS`. -/
structure LevelThreshold where
  level : Nat
  points : Int
  name : String
  color : String
  deriving Repr, DecidableEq

/-- The table `LEVEL_THRESHOLDS` (lines 44-52). -/
def LEVEL_THRESHOLDS : List LevelThreshold :=
  [ ⟨1, 0, "Seeker of Knowledge", "#8bc34a"⟩,
    ⟨2, 1000, "First Steps in Jannah", "#4caf50"⟩,
    ⟨3, 5000, "Devoted Reciter", "#2196f3"⟩,
    ⟨4, 10000, "Quran Guardian", "#9c27b0"⟩,
    ⟨5, 25000, "Hafiz Aspirant", "#ff9800"⟩,
    ⟨6, 50000, "Master Reciter", "#f44336"⟩,
    ⟨7, 100000, "Quran Champion", "#ffd700"⟩ ]

/-- One row of `MILESTONES`. -/
structure Milestone where
  id : String
  name : String
  points : Int
  icon : String
  deriving Repr, DecidableEq

/-- The table `MILESTONES` (lines 55-66). -/
def MILESTONES : List Milestone :=
  [ ⟨"first_recitation", "First Recitation", 100, "🎤"⟩,
    ⟨"accuracy_80", "80% Accuracy Achieved", 500, "🎯"⟩,
    ⟨"accuracy_90", "90% Accuracy Achieved", 1000, "⭐"⟩,
    ⟨"accuracy_95", "95% Accuracy Achieved", 2000, "🌟"⟩,
    ⟨"perfect_recitation", "Perfect Recitation", 5000, "👑"⟩,
    ⟨"daily_streak_7", "7-Day Streak", 300, "🔥"⟩,
    ⟨"daily_streak_30", "30-Day Streak", 1500, "💎"⟩,
    ⟨"expert_validated", "Expert Validated", 500, "✅"⟩,
    ⟨"scholar_approved", "Scholar Approved", 1000, "🎓"⟩,
    ⟨"community_helper", "Community Helper", 750, "🤝"⟩ ]

/-! ## Documents and render state -/

/-- The `metadata` object of an earning, by its `type` tag. -/
inductive Metadata where
  | recitation_improvement (improvement accuracy : ℚ) (basePoints : Int) (bonusMultiplier : ℚ)
  | milestone_achievement (milestone achievementId : String)
  | level_up (newLevel : Nat) (bonus : Int)
  deriving Repr, DecidableEq

/-- The earning record built by `awardPoints` (lines 169-173), without its timestamp. -/
structure Earning where
  points : Int
  metadata : Metadata
  deriving Repr, DecidableEq

/-- The value stored under `achievements.<id>` (lines 270-275), without its timestamp. -/
structure Achievement where
  name : String
  points : Int
  icon : String
  deriving Repr, DecidableEq

/-- The Firestore document `jannah-points/<userId>`. -/
structure UserDoc where
  totalPoints : Int
  currentLevel : Nat
  recentEarnings : List Earning
  milestones : List String
  achievements : List (String × Achievement)
  deriving Repr, DecidableEq

/-- The props and state values captured by the closures of one render of the component. -/
structure Render where
  userId : String
  currentAccuracy : Option ℚ
  previousAccuracy : Option ℚ
  totalPoints : Int
  currentLevel : Nat
  recentEarnings : List Earning
  milestones : List String
  deriving Repr, DecidableEq

/-- A call of one of the two mutually recursive handlers, recorded when it starts. -/
inductive Call where
  | awardPoints (points : Int) (metadata : Metadata)
  | levelUp (newLevel : Nat)
  deriving Repr, DecidableEq

/-- The store together with the record of handler calls made so far. -/
structure World where
  doc : UserDoc
  calls : List Call
  deriving Repr, DecidableEq

/-- Result of running a handler with a call budget: it returned (`done`), or the budget
ran out while calls were still pending (`running`), with the world reached so far. -/
inductive Outcome where
  | done (w : World)
  | running (w : World)
  deriving Repr, DecidableEq

/-- The world an outcome carries. -/
def Outcome.world : Outcome → World
  | .done w => w
  | .running w => w

/-- Sequencing of `await`: the continuation runs only after the awaited call returned. -/
def Outcome.andThen (o : Outcome) (k : World → Outcome) : Outcome :=
  match o with
  | .done w => k w
  | .running w => .running w

/-- JavaScript `ToNumber` on a prop that may be `null`. -/
def toNumber : Option ℚ → ℚ
  | some x => x
  | none => 0

/-! ## Pure computations -/

/-- The function `calculateLevel` (lines 284-291): scan the table from its last row down. -/
def calculateLevel (points : Int) : Nat :=
  match LEVEL_THRESHOLDS.reverse.find? (fun l => decide (points ≥ l.points)) with
  | some l => l.level
  | none => 1

/-- The function `getNextLevelThreshold` (lines 296-299). -/
def getNextLevelThreshold (level : Nat) : Int :=
  match LEVEL_THRESHOLDS.find? (fun l => decide (l.level > level)) with
  | some l => l.points
  | none => (LEVEL_THRESHOLDS.getLast?.map (fun l => l.points)).getD 0

/-- Line 112: `improvement = currentAccuracy - previousAccuracy`. -/
def improvement (previousAccuracy currentAccuracy : ℚ) : ℚ :=
  currentAccuracy - previousAccuracy

/-- Line 115: `basePoints = Math.max(0, Math.floor(improvement * 10))`. -/
def basePoints (previousAccuracy currentAccuracy : ℚ) : Int :=
  max 0 ⌊improvement previousAccuracy currentAccuracy * 10⌋

/-- Lines 118-133: the bonus multiplier, given the result of `checkConsistencyBonus`. -/
def bonusMultiplier (currentAccuracy : ℚ) (consistencyBonus : Bool) : ℚ :=
  let m : ℚ := 1
  let m := if currentAccuracy ≥ 95 then m + 1/2
    else if currentAccuracy ≥ 90 then m + 1/4
    else if currentAccuracy ≥ 80 then m + 1/10
    else m
  if consistencyBonus then m + 1/5 else m

/-- Line 136: `finalPoints = Math.floor(basePoints * bonusMultiplier)`. -/
def finalPoints (previousAccuracy currentAccuracy : ℚ) (consistencyBonus : Bool) : Int :=
  ⌊(basePoints previousAccuracy currentAccuracy : ℚ) * bonusMultiplier currentAccuracy consistencyBonus⌋

/-- The test `earning.metadata?.type === 'recitation_improvement'`. -/
def Earning.isImprovement (e : Earning) : Bool :=
  match e.metadata with
  | .recitation_improvement _ _ _ _ => true
  | _ => false

/-- The test `earning.metadata.improvement > 0` on an improvement earning. -/
def Earning.positiveImprovement (e : Earning) : Bool :=
  match e.metadata with
  | .recitation_improvement i _ _ _ => decide (i > 0)
  | _ => false

/-- JavaScript `xs.slice(-n)`: the last `n` elements, all of `xs` when it is shorter. -/
def sliceLast {α : Type} (n : Nat) (xs : List α) : List α :=
  xs.drop (xs.length - n)

/-- The function `checkConsistencyBonus` (lines 226-234), reading the render's log. -/
def checkConsistencyBonus (r : Render) : Bool :=
  let recentImprovements := sliceLast 5 (r.recentEarnings.filter Earning.isImprovement)
  decide (recentImprovements.length ≥ 3) && recentImprovements.all Earning.positiveImprovement

/-! ## Handlers that write to the store -/

/-- The `updateDoc` of `awardPoints` (lines 176-180): an atomic `increment(points)` of the
stored total, and `recentEarnings` replaced by the render's log trimmed to its last nine
entries followed by the new earning. -/
def awardPointsUpdate (r : Render) (points : Int) (metadata : Metadata) (d : UserDoc) : UserDoc :=
  { d with
    totalPoints := d.totalPoints + points
    recentEarnings := sliceLast 9 r.recentEarnings ++ [⟨points, metadata⟩] }

/-- The `updateDoc` of `levelUp` (lines 201-204). -/
def levelUpUpdate (newLevel : Nat) (d : UserDoc) : UserDoc :=
  { d with currentLevel := newLevel }

mutual
/-- The function `awardPoints` (lines 164-193).  The level check reads the render's
`totalPoints` and `currentLevel`.  With no budget left the call has not started and the
world is handed back as `running`. -/
def awardPoints (r : Render) : Nat → Int → Metadata → World → Outcome
  | 0, _, _, w => .running w
  | fuel + 1, points, metadata, w =>
    let w1 : World :=
      { doc := awardPointsUpdate r points metadata w.doc
        calls := w.calls ++ [.awardPoints points metadata] }
    let newTotal := r.totalPoints + points
    let newLevel := calculateLevel newTotal
    if newLevel > r.currentLevel then levelUp r fuel newLevel w1 else .done w1
/-- The function `levelUp` (lines 198-221). -/
def levelUp (r : Render) : Nat → Nat → World → Outcome
  | 0, _, w => .running w
  | fuel + 1, newLevel, w =>
    let w1 : World :=
      { doc := levelUpUpdate newLevel w.doc
        calls := w.calls ++ [.levelUp newLevel] }
    let levelUpBonus : Int := (newLevel : Int) * 100
    awardPoints r fuel levelUpBonus (.level_up newLevel levelUpBonus) w1
end

/-- Lines 240-254 of `checkMilestoneAchievements`: the ids pushed to `newAchievements`. -/
def newAchievements (r : Render) : List String :=
  let a := toNumber r.currentAccuracy
  (if a ≥ 80 ∧ ¬ r.milestones.contains "accuracy_80" then ["accuracy_80"] else [])
  ++ (if a ≥ 90 ∧ ¬ r.milestones.contains "accuracy_90" then ["accuracy_90"] else [])
  ++ (if a ≥ 95 ∧ ¬ r.milestones.contains "accuracy_95" then ["accuracy_95"] else [])
  ++ (if a ≥ 199/2 ∧ ¬ r.milestones.contains "perfect_recitation"
        then ["perfect_recitation"] else [])

/-- The `updateDoc` of the milestone loop (lines 268-276): `milestones` replaced by the
render's list followed by the id, and the field `achievements.<id>` set. -/
def milestoneUpdate (r : Render) (achievementId : String) (m : Milestone) (d : UserDoc) : UserDoc :=
  { d with
    milestones := r.milestones ++ [achievementId]
    achievements :=
      d.achievements.filter (fun kv => kv.1 ≠ achievementId)
        ++ [(achievementId, ⟨m.name, m.points, m.icon⟩)] }

/-- The loop of lines 257-278 over the ids still to process. -/
def awardMilestones (r : Render) (fuel : Nat) : List String → World → Outcome
  | [], w => .done w
  | achievementId :: rest, w =>
    match MILESTONES.find? (fun m => m.id == achievementId) with
    | some milestone =>
      (awardPoints r fuel milestone.points
          (.milestone_achievement milestone.name achievementId) w).andThen fun w1 =>
        awardMilestones r fuel rest
          { w1 with doc := milestoneUpdate r achievementId milestone w1.doc }
    | none => awardMilestones r fuel rest w

/-- The function `checkMilestoneAchievements` (lines 239-279). -/
def checkMilestoneAchievements (r : Render) (fuel : Nat) (w : World) : Outcome :=
  awardMilestones r fuel (newAchievements r) w

/-- Lines 111-149 of `calculateAndAwardPoints`: the improvement award. -/
def improvementAward (r : Render) (fuel : Nat) (w : World) : Outcome :=
  let cur := toNumber r.currentAccuracy
  let prev := toNumber r.previousAccuracy
  let bonus := bonusMultiplier cur (checkConsistencyBonus r)
  let final := finalPoints prev cur (checkConsistencyBonus r)
  if final > 0 then
    awardPoints r fuel final
      (.recitation_improvement (improvement prev cur) cur (basePoints prev cur) bonus) w
  else .done w

/-- The function `calculateAndAwardPoints` (lines 105-159). -/
def calculateAndAwardPoints (r : Render) (fuel : Nat) (w : World) : Outcome :=
  if r.userId = "" ∨ r.currentAccuracy = none ∨ r.previousAccuracy = none then .done w
  else (improvementAward r fuel w).andThen fun w1 => checkMilestoneAchievements r fuel w1

/-- The effect of lines 96-100: run the handler when both accuracies are known and differ. -/
def onAccuracyChange (r : Render) (fuel : Nat) (w : World) : Outcome :=
  if r.currentAccuracy ≠ none ∧ r.previousAccuracy ≠ none
      ∧ r.currentAccuracy ≠ r.previousAccuracy then
    calculateAndAwardPoints r fuel w
  else .done w

/-- The snapshot listener (lines 75-88): the state of the next render, read from the store. -/
def snapshot (r : Render) (d : UserDoc) : Render :=
  { r with
    totalPoints := d.totalPoints
    currentLevel := if d.currentLevel = 0 then 1 else d.currentLevel
    recentEarnings := d.recentEarnings
    milestones := d.milestones }

/-- The points of the `awardPoints` calls in a call record. -/
def awardedPoints : List Call → List Int
  | [] => []
  | .awardPoints p _ :: cs => p :: awardedPoints cs
  | .levelUp _ :: cs => awardedPoints cs

/-- The milestone ids and points of the milestone `awardPoints` calls in a call record. -/
def milestoneAwards : List Call → List (String × Int)
  | [] => []
  | .awardPoints p (.milestone_achievement _ id) :: cs => (id, p) :: milestoneAwards cs
  | _ :: cs => milestoneAwards cs

/-- The accuracy tier of the multiplier as the specification words it: one term per tier,
each with its own two-sided range. -/
def specTierBonus (a : ℚ) : ℚ :=
  (if a ≥ 95 then 1/2 else 0) + (if 90 ≤ a ∧ a < 95 then 1/4 else 0)
    + (if 80 ≤ a ∧ a < 90 then 1/10 else 0)

/-- A sequence of engine operations: each entry is one render whose accuracy effect runs
with its own call budget on the world the previous entries left. -/
def runEngine : List (Render × Nat) → World → World
  | [], w => w
  | (r, fuel) :: ops, w => runEngine ops (onAccuracyChange r fuel w).world

/-- A render at accuracy 90 with no milestone yet, 2000 points, level 2. -/
def reobservedRender : Render := ⟨"u", some 90, some 85, 2000, 2, [], []⟩

/-- The document that `reobservedRender` was read from. -/
def reobservedDoc : UserDoc := ⟨2000, 2, [], [], []⟩

/-- The document stored by the milestone check of `reobservedRender`. -/
def reobservedDocAfter : UserDoc :=
  ⟨3500, 2, [⟨1000, .milestone_achievement "90% Accuracy Achieved" "accuracy_90"⟩],
    ["accuracy_90"],
    [("accuracy_80", ⟨"80% Accuracy Achieved", 500, "🎯"⟩),
      ("accuracy_90", ⟨"90% Accuracy Achieved", 1000, "⭐"⟩)]⟩

/-- A render at accuracy 90 with no milestone yet, 900 points, level 1. -/
def thresholdRender : Render := ⟨"u", some 90, some 85, 900, 1, [], []⟩

/-- The document that `thresholdRender` was read from. -/
def thresholdDoc : UserDoc := ⟨900, 1, [], [], []⟩

/-- The milestone awards of the specification at accuracy `a` and milestone list `M`: the
four accuracy milestones, in order, whose threshold is met and whose id is not in `M`,
each with its fixed points. -/
def specMilestoneAwards (a : ℚ) (M : List String) : List (String × Int) :=
  ([("accuracy_80", (80 : ℚ), (500 : Int)), ("accuracy_90", 90, 1000),
      ("accuracy_95", 95, 2000), ("perfect_recitation", 199 / 2, 5000)].filter
    (fun t => decide (a ≥ t.2.1) && !M.contains t.1)).map (fun t => (t.1, t.2.2))

/-- The level of the specification: the greatest level of a row whose points do not
exceed the total. -/
def IsSpecLevel (points : Int) (n : Nat) : Prop :=
  IsGreatest {k | ∃ l ∈ LEVEL_THRESHOLDS, l.points ≤ points ∧ l.level = k} n

/-- The relation between the world before and after some handler calls: the call record
grew by `cs`, every `awardPoints` call in `cs` carries positive points, and the stored
total grew by exactly the sum of those points. -/
def Advances (w w' : World) (cs : List Call) : Prop :=
  w'.calls = w.calls ++ cs ∧ (∀ q ∈ awardedPoints cs, 0 < q)
    ∧ w'.doc.totalPoints = w.doc.totalPoints + (awardedPoints cs).sum

/-- The levels persisted by the `levelUp` calls of a call record, in order. -/
def persistedLevels : List Call → List Nat
  | [] => []
  | .levelUp n :: cs => n :: persistedLevels cs
  | .awardPoints _ _ :: cs => persistedLevels cs

/-- A render at 750 points, level 1: the level of its total. -/
def jumpRender : Render := ⟨"u", some 100, some 99, 750, 1, [], []⟩

/-- The document that `jumpRender` was read from. -/
def jumpDoc : UserDoc := ⟨750, 1, [], [], []⟩

/-- A render at 700 points, level 1: the level of its total. -/
def crossingRender : Render := ⟨"u", some 100, some 99, 700, 1, [], []⟩

/-- The document that `crossingRender` was read from. -/
def crossingDoc : UserDoc := ⟨700, 1, [], [], []⟩

/-- The consistency bonus of the specification on a log: of the improvement entries, in
order, the most recent five are kept; at least three are kept and each kept entry recorded
an improvement above zero. -/
def specConsistencyBonus (log : List Earning) : Prop :=
  3 ≤ (((log.filter Earning.isImprovement).reverse.take 5).reverse).length
    ∧ ∀ e ∈ ((log.filter Earning.isImprovement).reverse.take 5).reverse,
        ∀ (i a : ℚ) (b : Int) (m : ℚ), e.metadata = .recitation_improvement i a b m → 0 < i

/-! ## The Hafiz correction engine

A shallow embedding of `QuranLab/src/components/HafizCorrectionEngine.js`.

* `Component` holds the props, the React state and the two refs of the component.  A handler
  is a closure of one render: it reads the `Component` value `r` of that render and writes,
  through the state setters and the refs, to the current state of the `Engine`.
* The results of the external calls of one handler run are given by `External`.
* `setTimeout` stores the callback with the render whose closure it is; the expiry event runs
  it later, when the current state may have changed.
* A handler runs to its end before the next event is handled.
-/

/-- The values of `correctionStatus` (line 19). -/
inductive Status where
  | pending | assigned | inProgress | completed
  deriving Repr, DecidableEq

/-- The values returned by `calculatePriority`. -/
inductive Priority where
  | high | medium | low
  deriving Repr, DecidableEq

/-- The values of `EXPERT_CONFIG.expertLevels` (firebase-config.js, line 267). -/
inductive ExpertLevel where
  | junior | senior | master | scholar
  deriving Repr, DecidableEq

/-- An expert as returned by `/api/find-experts`. -/
structure Expert where
  id : String
  name : String
  rating : ℚ
  available : Bool
  level : ExpertLevel
  averageResponseTime : Nat
  deriving Repr, DecidableEq

/-- The prop `analysisResult`. -/
structure AnalysisResult where
  accuracy : ℚ
  detectedStyle : Option String
  deriving Repr, DecidableEq

/-- The request object of lines 91-100; `id` is the `Date.now()` of `correction_<now>`; the
server timestamp and the constant mock profile are left out. -/
structure CorrectionRequest where
  id : Nat
  userId : String
  analysisResult : AnalysisResult
  status : Status
  priority : Priority
  guaranteedResponseBy : Nat
  deriving Repr, DecidableEq

/-- The messages passed to `addNotification`. -/
inductive Note where
  | submitted
  | expertAssigned (name : String)
  | responseTimeExceeded
  | escalated
  deriving Repr, DecidableEq

/-- Props, state and refs of the component; also the values one render's closures read. -/
structure Component where
  analysisResult : Option AnalysisResult
  userId : String
  correctionRequest : Option CorrectionRequest
  availableExperts : List Expert
  selectedExpert : Option Expert
  correctionStatus : Status
  humanFeedback : Option String
  scholarReview : Option String
  responseTime : Option Int
  loading : Bool
  error : Option String
  notifications : List Note
  requestStartTime : Option Nat
  deriving Repr, DecidableEq

/-- A callback scheduled by `setTimeout`: its delay in milliseconds and the render whose
closure it is. -/
structure Timer where
  delay : Nat
  captured : Component
  deriving Repr, DecidableEq

/-- The body posted to `/api/notify-expert` (lines 189-194). -/
structure NotifyBody where
  expertId : String
  correctionRequestId : Nat
  priority : Priority
  estimatedTime : Nat
  deriving Repr, DecidableEq

/-- A handler call of the correction engine, recorded when it starts. -/
inductive HafizCall where
  | initiateCorrectionRequest
  | assignExpert (expertId : String)
  | escalateToSeniorExpert
  deriving Repr, DecidableEq

/-- The current state of the component with what it has sent out: scheduled timers (oldest
first), documents added to `correction-requests`, notification posts, handler calls. -/
structure Engine where
  state : Component
  timers : List Timer
  requests : List CorrectionRequest
  notified : List NotifyBody
  calls : List HafizCall
  deriving Repr, DecidableEq

/-- What the outside answers during one handler run: the clock (`new Date()` of line 83,
`Date.now()` of lines 92 and 98), the response of `/api/find-experts` (`none` when the call
or its decoding fails), and whether `addDoc` and the post to `/api/notify-expert` succeed. -/
structure External where
  startedAt : Nat
  now : Nat
  experts : Option (List Expert)
  addDocOk : Bool
  notifyOk : Bool
  deriving Repr, DecidableEq

/-- The data of a document reported by the snapshot listener. -/
structure RequestDoc where
  status : Status
  humanFeedback : Option String
  scholarReview : Option String
  updatedAt : Option Nat
  deriving Repr, DecidableEq

/-- The values `EXPERT_CONFIG.responseTimeGuarantee` (minutes) of firebase-config.js,
line 266. -/
def EXPERT_CONFIG_responseTimeGuarantee : Nat := 30

/-- The delay `30 * 60 * 1000` passed to `setTimeout` (line 213). -/
def responseTimerDelay : Nat := 30 * 60 * 1000

/-- The field `guaranteedResponseBy` of line 98: `Date.now() + 30 * 60 * 1000`. -/
def guaranteedResponseBy (now : Nat) : Nat := now + 30 * 60 * 1000

/-- The function `calculatePriority` (lines 153-157). -/
def calculatePriority (accuracy : ℚ) : Priority :=
  if accuracy < 70 then .high
  else if accuracy < 85 then .medium
  else .low

/-- The function `addNotification` (lines 245-253): newest first, five kept. -/
def addNotification (n : Note) (w : Engine) : Engine :=
  { w with state := { w.state with notifications := n :: w.state.notifications.take 4 } }

/-- The function `findMatchingExperts` (lines 127-148).  A failed call, and a missing
analysis result, end in the `catch` and give the empty list. -/
def findMatchingExperts (r : Component) (env : External) : List Expert :=
  match r.analysisResult, env.experts with
  | some _, some experts => experts.filter (fun expert => expert.available && decide (expert.rating ≥ 9 / 2))
  | _, _ => []

/-- The function `assignExpert` (lines 178-202).  The two setters run first; building the
post body reads the render's `correctionRequest` and `analysisResult` and throws into the
`catch` when one is `null`; so does a failed post. -/
def assignExpert (r : Component) (env : External) (expert : Expert) (w : Engine) : Engine :=
  let w1 : Engine :=
    { w with
      state := { w.state with selectedExpert := some expert, correctionStatus := .assigned }
      calls := w.calls ++ [.assignExpert expert.id] }
  match r.correctionRequest, r.analysisResult with
  | some request, some analysis =>
    if env.notifyOk then
      addNotification (.expertAssigned expert.name)
        { w1 with
          notified := w1.notified ++
            [⟨expert.id, request.id, calculatePriority analysis.accuracy,
              expert.averageResponseTime⟩] }
    else w1
  | _, _ => w1

/-- The function `escalateToSeniorExpert` (lines 219-229), reading the render's
`availableExperts`. -/
def escalateToSeniorExpert (r : Component) (env : External) (w : Engine) : Engine :=
  let w1 : Engine := { w with calls := w.calls ++ [.escalateToSeniorExpert] }
  match r.availableExperts.filter (fun expert => decide (expert.level = .senior)) with
  | expert :: _ => addNotification .escalated (assignExpert r env expert w1)
  | [] => w1

/-- The callback that `startResponseTimer` passes to `setTimeout` (lines 208-213), reading
the render's `correctionStatus`. -/
def responseTimerCallback (r : Component) (env : External) (w : Engine) : Engine :=
  if r.correctionStatus = .pending ∨ r.correctionStatus = .assigned then
    escalateToSeniorExpert r env (addNotification .responseTimeExceeded w)
  else w

/-- The function `startResponseTimer` (lines 207-214). -/
def startResponseTimer (r : Component) (w : Engine) : Engine :=
  { w with timers := w.timers ++ [⟨responseTimerDelay, r⟩] }

/-- The function `initiateCorrectionRequest` (lines 81-122). -/
def initiateCorrectionRequest (r : Component) (env : External) (w : Engine) : Engine :=
  let w0 : Engine :=
    { w with
      state := { w.state with loading := true, requestStartTime := some env.startedAt }
      calls := w.calls ++ [.initiateCorrectionRequest] }
  let experts := findMatchingExperts r env
  let w1 : Engine := { w0 with state := { w0.state with availableExperts := experts } }
  let failed : Engine :=
    { w1 with
      state := { w1.state with
        error := some "Failed to initiate correction request. Please try again."
        loading := false } }
  match r.analysisResult with
  | none => failed
  | some analysis =>
    let request : CorrectionRequest :=
      { id := env.now
        userId := r.userId
        analysisResult := analysis
        status := .pending
        priority := calculatePriority analysis.accuracy
        guaranteedResponseBy := guaranteedResponseBy env.now }
    if env.addDocOk then
      let w2 : Engine :=
        { w1 with
          requests := w1.requests ++ [request]
          state := { w1.state with correctionRequest := some request } }
      let w3 := startResponseTimer r w2
      let w4 := match experts with
        | expert :: _ => assignExpert r env expert w3
        | [] => w3
      let w5 := addNotification .submitted w4
      { w5 with state := { w5.state with loading := false } }
    else failed

/-- The effect of lines 47-51, run by the render `r` in which `analysisResult` changed. -/
def onAnalysisResult (r : Component) (env : External) (w : Engine) : Engine :=
  match r.analysisResult with
  | some analysis =>
    if analysis.accuracy < 95 then initiateCorrectionRequest r env w else w
  | none => w

/-- The function `updateResponseTime` (lines 234-240). -/
def updateResponseTime (updatedAt : Option Nat) (w : Engine) : Engine :=
  match w.state.requestStartTime, updatedAt with
  | some start, some u =>
    { w with state := { w.state with
        responseTime := some ⌊(((u : Int) - (start : Int) : Int) : ℚ) / (1000 * 60)⌋ } }
  | _, _ => w

/-- The snapshot callback of lines 63-71 for one reported document. -/
def onSnapshotDoc (d : RequestDoc) (w : Engine) : Engine :=
  let w1 : Engine := { w with state := { w.state with correctionStatus := d.status } }
  let w2 : Engine := match d.humanFeedback with
    | some f => if f = "" then w1 else { w1 with state := { w1.state with humanFeedback := some f } }
    | none => w1
  let w3 : Engine := match d.scholarReview with
    | some f => if f = "" then w2 else { w2 with state := { w2.state with scholarReview := some f } }
    | none => w2
  updateResponseTime d.updatedAt w3

/-- The events the component handles. -/
inductive Event where
  | analysis (a : Option AnalysisResult) (env : External)
  | update (d : RequestDoc)
  | expiry (env : External)
  deriving Repr, DecidableEq

/-- One event: a new `analysisResult` prop renders and runs the effect of lines 47-51 as a
closure of that render; a store update reaches the listener once a request is set
(lines 56-76); an expiry runs the oldest scheduled callback. -/
def step (w : Engine) : Event → Engine
  | .analysis a env =>
    let w1 : Engine := { w with state := { w.state with analysisResult := a } }
    onAnalysisResult w1.state env w1
  | .update d => if w.state.correctionRequest.isSome then onSnapshotDoc d w else w
  | .expiry env =>
    match w.timers with
    | t :: ts => responseTimerCallback t.captured env { w with timers := ts }
    | [] => w

/-- A sequence of events, handled in order. -/
def runEvents (w : Engine) (es : List Event) : Engine :=
  es.foldl step w

/-- The component as mounted (lines 16-29) for a user, before any analysis result. -/
def mount (userId : String) : Engine :=
  { state :=
      { analysisResult := none, userId := userId, correctionRequest := none
        availableExperts := [], selectedExpert := none, correctionStatus := .pending
        humanFeedback := none, scholarReview := none, responseTime := none
        loading := false, error := none, notifications := [], requestStartTime := none }
    timers := [], requests := [], notified := [], calls := [] }

/-- A junior expert who passes the availability and rating filter. -/
def juniorExpert : Expert := ⟨"j", "Junior", 24 / 5, true, .junior, 10⟩

/-- A senior expert who passes the availability and rating filter. -/
def seniorExpert : Expert := ⟨"s", "Senior", 49 / 10, true, .senior, 5⟩

/-- An analysis result of accuracy 60. -/
def lowAnalysis : AnalysisResult := ⟨60, none⟩

/-- An analysis result of accuracy 50. -/
def lowerAnalysis : AnalysisResult := ⟨50, none⟩

/-- External answers at clock 1000: the matching service returns the junior then the
senior expert, and every call succeeds. -/
def poolEnv : External := ⟨1000, 1000, some [juniorExpert, seniorExpert], true, true⟩

/-- A store update reporting the given status at clock 2000. -/
def statusUpdate (status : Status) : RequestDoc := ⟨status, none, none, some 2000⟩

/-! ## Further definitions: progress display, store writes, response-time indicator -/

/-- The function `getCurrentLevelInfo` (lines 304-306): the row of the render's level, or
the first row. -/
def getCurrentLevelInfo (r : Render) : LevelThreshold :=
  match LEVEL_THRESHOLDS.find? (fun l => decide (l.level = r.currentLevel)) with
  | some l => l
  | none => ⟨1, 0, "Seeker of Knowledge", "#8bc34a"⟩

/-- The divisor `pointsNeededForLevel` of `getProgressPercentage` (line 341). -/
def pointsNeededForLevel (r : Render) : Int :=
  getNextLevelThreshold r.currentLevel - (getCurrentLevelInfo r).points

/-- The function `getProgressPercentage` (lines 337-344).  With a zero divisor JavaScript
gives `Infinity`, capped to 100 by `Math.min`, for a positive numerator, and `NaN` or
`-Infinity` otherwise: the latter is `none`. -/
def getProgressPercentage (r : Render) : Option ℚ :=
  let pointsInCurrentLevel : Int := r.totalPoints - (getCurrentLevelInfo r).points
  if pointsNeededForLevel r = 0 then
    if 0 < pointsInCurrentLevel then some 100 else none
  else some (min 100 (((pointsInCurrentLevel : ℚ) / (pointsNeededForLevel r : ℚ)) * 100))

/-- The test `responseTime <= 30` of the response-time indicator (lines 379-380): true shows
"Within Guarantee". -/
def withinGuarantee (responseTime : Int) : Bool :=
  decide (responseTime ≤ 30)

/-- The improvement fields of the improvement `awardPoints` calls in a call record. -/
def improvementsOf : List Call → List ℚ
  | [] => []
  | .awardPoints _ (.recitation_improvement i _ _ _) :: cs => i :: improvementsOf cs
  | _ :: cs => improvementsOf cs

/-- One `updateDoc` sent to the user document by a handler. -/
inductive StoreWrite where
  | award (r : Render) (points : Int) (metadata : Metadata)
  | level (newLevel : Nat)
  | milestone (r : Render) (achievementId : String) (m : Milestone)

/-- The document after one write, applied atomically by the store. -/
def StoreWrite.apply : StoreWrite → UserDoc → UserDoc
  | .award r points metadata, d => awardPointsUpdate r points metadata d
  | .level newLevel, d => levelUpUpdate newLevel d
  | .milestone r achievementId m, d => milestoneUpdate r achievementId m d

/-- The `increment` a write carries for `totalPoints`. -/
def StoreWrite.increment : StoreWrite → Int
  | .award _ points _ => points
  | .level _ => 0
  | .milestone _ _ _ => 0

/-- The document after a sequence of writes, in the order in which the store applies them. -/
def applyWrites (ws : List StoreWrite) (d : UserDoc) : UserDoc :=
  ws.foldl (fun d w => w.apply d) d

/-- The position of a level in `EXPERT_CONFIG.expertLevels`:
junior < senior < master < scholar. -/
def ExpertLevel.rank : ExpertLevel → Nat
  | .junior => 0
  | .senior => 1
  | .master => 2
  | .scholar => 3

/-- A master expert who passes the availability and rating filter. -/
def masterExpert : Expert := ⟨"m", "Master", 5, true, .master, 3⟩

/-- A render at accuracy 80, up from 75, with an empty log, 2000 points, level 2. -/
def coAwardRender : Render := ⟨"u", some 80, some 75, 2000, 2, [], []⟩

/-- The document that `coAwardRender` was read from. -/
def coAwardDoc : UserDoc := ⟨2000, 2, [], [], []⟩

/-- External answers at clock 1000: the matching service returns the master then the
senior expert, and every call succeeds. -/
def masterFirstEnv : External := ⟨1000, 1000, some [masterExpert, seniorExpert], true, true⟩

/-! ## Lemmas on the call record and the award chain -/

theorem awardedPoints_append (xs ys : List Call) :
    awardedPoints (xs ++ ys) = awardedPoints xs ++ awardedPoints ys := by
  induction xs with
  | nil => rfl
  | cons c cs ih => cases c <;> simp [awardedPoints, ih]

theorem milestoneAwards_append (xs ys : List Call) :
    milestoneAwards (xs ++ ys) = milestoneAwards xs ++ milestoneAwards ys := by
  induction xs with
  | nil => rfl
  | cons c cs ih =>
    cases c with
    | levelUp n => simp [milestoneAwards, ih]
    | awardPoints p md => cases md <;> simp [milestoneAwards, ih]

theorem Advances.refl (w : World) : Advances w w [] := by
  simp [Advances, awardedPoints]

theorem Advances.trans {w1 w2 w3 : World} {cs ds : List Call}
    (h1 : Advances w1 w2 cs) (h2 : Advances w2 w3 ds) : Advances w1 w3 (cs ++ ds) := by
  obtain ⟨a1, b1, c1⟩ := h1
  obtain ⟨a2, b2, c2⟩ := h2
  refine ⟨by rw [a2, a1, List.append_assoc], ?_, ?_⟩
  · intro q hq
    rw [awardedPoints_append, List.mem_append] at hq
    exact hq.elim (b1 q) (b2 q)
  · rw [c2, c1, awardedPoints_append, List.sum_append]; ring

/-- The scan of `calculateLevel` over the seven rows, written out. -/
theorem calculateLevel_eq (points : Int) :
    calculateLevel points =
      if 100000 ≤ points then 7 else if 50000 ≤ points then 6
      else if 25000 ≤ points then 5 else if 10000 ≤ points then 4
      else if 5000 ≤ points then 3 else if 1000 ≤ points then 2 else 1 := by
  unfold calculateLevel
  simp only [LEVEL_THRESHOLDS, List.reverse_cons, List.reverse_nil, List.nil_append,
    List.cons_append, List.find?, ge_iff_le]
  by_cases h0 : 0 ≤ points <;> split_ifs <;> simp [*]

theorem calculateLevel_pos (points : Int) : 0 < calculateLevel points := by
  rw [calculateLevel_eq]
  split_ifs <;> decide

/-- The chain started by a positive `awardPoints` call (and by `levelUp` at a positive
level) only advances the world, whatever the call budget. -/
theorem award_chain_advances (r : Render) :
    ∀ fuel : Nat,
      (∀ (p : Int) (md : Metadata) (w : World), 0 < p →
        ∃ cs, Advances w (awardPoints r fuel p md w).world cs
          ∧ (fuel ≠ 0 → ∃ rest, cs = Call.awardPoints p md :: rest))
      ∧ (∀ (n : Nat) (w : World), 0 < n → ∃ cs, Advances w (levelUp r fuel n w).world cs) := by
  intro fuel
  induction fuel with
  | zero =>
    refine ⟨fun p md w _ => ⟨[], ?_, by simp⟩, fun n w _ => ⟨[], ?_⟩⟩
    · simpa [awardPoints, Outcome.world] using Advances.refl w
    · simpa [levelUp, Outcome.world] using Advances.refl w
  | succ fuel ih =>
    obtain ⟨ihA, ihL⟩ := ih
    constructor
    · intro p md w hp
      have step : Advances w
          { doc := awardPointsUpdate r p md w.doc, calls := w.calls ++ [.awardPoints p md] }
          [.awardPoints p md] := by
        refine ⟨rfl, ?_, ?_⟩
        · intro q hq
          simp [awardedPoints] at hq
          omega
        · simp [awardPointsUpdate, awardedPoints]
      unfold awardPoints
      by_cases hl : calculateLevel (r.totalPoints + p) > r.currentLevel
      · obtain ⟨cs, hcs⟩ := ihL (calculateLevel (r.totalPoints + p)) _ (calculateLevel_pos _)
        refine ⟨[.awardPoints p md] ++ cs, ?_, fun _ => ⟨cs, rfl⟩⟩
        simp only [hl, if_true]
        exact step.trans hcs
      · refine ⟨[.awardPoints p md], ?_, fun _ => ⟨[], rfl⟩⟩
        simp only [hl, if_false]
        exact step
    · intro n w hn
      have step : Advances w
          { doc := levelUpUpdate n w.doc, calls := w.calls ++ [.levelUp n] } [.levelUp n] := by
        refine ⟨rfl, ?_, ?_⟩
        · intro q hq
          simp [awardedPoints] at hq
        · simp [levelUpUpdate, awardedPoints]
      unfold levelUp
      have hb : (0 : Int) < (n : Int) * 100 := by positivity
      obtain ⟨cs, hcs, -⟩ := ihA ((n : Int) * 100) (.level_up n ((n : Int) * 100)) _ hb
      exact ⟨[.levelUp n] ++ cs, step.trans hcs⟩

/-- The base points with the `max` moved inside the floor. -/
theorem basePoints_floor_max (previousAccuracy currentAccuracy : ℚ) :
    basePoints previousAccuracy currentAccuracy
      = ⌊max 0 (currentAccuracy - previousAccuracy) * 10⌋ := by
  unfold basePoints improvement
  rcases le_total previousAccuracy currentAccuracy with h | h
  · have h0 : (0 : ℚ) ≤ currentAccuracy - previousAccuracy := sub_nonneg.mpr h
    have h1 : (0 : Int) ≤ ⌊(currentAccuracy - previousAccuracy) * 10⌋ :=
      Int.floor_nonneg.mpr (by positivity)
    rw [max_eq_right h1, max_eq_right h0]
  · have h0 : currentAccuracy - previousAccuracy ≤ 0 := sub_nonpos.mpr h
    have h1 : ⌊(currentAccuracy - previousAccuracy) * 10⌋ ≤ (0 : Int) := by
      have : (currentAccuracy - previousAccuracy) * 10 ≤ ((0 : Int) : ℚ) := by
        push_cast; nlinarith
      exact Int.cast_le.mp (le_trans (Int.floor_le _) this)
    rw [max_eq_left h1, max_eq_left h0]
    simp

theorem milestone_points_pos {achievementId : String} {m : Milestone}
    (h : MILESTONES.find? (fun m => m.id == achievementId) = some m) : 0 < m.points := by
  have hall : ∀ x ∈ MILESTONES, 0 < x.points := by decide
  exact hall m (List.mem_of_find?_eq_some h)

/-- The milestone loop only advances the world, whatever the call budget. -/
theorem awardMilestones_advances (r : Render) (fuel : Nat) :
    ∀ (ids : List String) (w : World),
      ∃ cs, Advances w (awardMilestones r fuel ids w).world cs := by
  intro ids
  induction ids with
  | nil => intro w; exact ⟨[], by simpa [awardMilestones, Outcome.world] using Advances.refl w⟩
  | cons achievementId rest ih =>
    intro w
    unfold awardMilestones
    cases hf : MILESTONES.find? (fun m => m.id == achievementId) with
    | none => simpa using ih w
    | some m =>
      obtain ⟨cs, hcs, -⟩ :=
        (award_chain_advances r fuel).1 m.points
          (.milestone_achievement m.name achievementId) w (milestone_points_pos hf)
      simp only []
      cases ho : awardPoints r fuel m.points (.milestone_achievement m.name achievementId) w with
      | running w1 =>
        rw [ho] at hcs
        exact ⟨cs, by simpa [Outcome.andThen, Outcome.world] using hcs⟩
      | done w1 =>
        rw [ho] at hcs
        simp only [Outcome.world] at hcs
        obtain ⟨ds, hds⟩ := ih { w1 with doc := milestoneUpdate r achievementId m w1.doc }
        have hstep : Advances w { w1 with doc := milestoneUpdate r achievementId m w1.doc } cs := by
          obtain ⟨a, b, c⟩ := hcs
          exact ⟨a, b, by simpa [milestoneUpdate] using c⟩
        exact ⟨cs ++ ds, by simpa [Outcome.andThen] using hstep.trans hds⟩

/-- The improvement award only advances the world, and is a single `awardPoints` chain. -/
theorem improvementAward_advances (r : Render) (fuel : Nat) (w : World) :
    ∃ cs, Advances w (improvementAward r fuel w).world cs := by
  unfold improvementAward
  simp only []
  split_ifs with h
  · obtain ⟨cs, hcs, -⟩ := (award_chain_advances r fuel).1 _ (.recitation_improvement
      (improvement (toNumber r.previousAccuracy) (toNumber r.currentAccuracy))
      (toNumber r.currentAccuracy)
      (basePoints (toNumber r.previousAccuracy) (toNumber r.currentAccuracy))
      (bonusMultiplier (toNumber r.currentAccuracy) (checkConsistencyBonus r))) w h
    exact ⟨cs, hcs⟩
  · exact ⟨[], by simpa [Outcome.world] using Advances.refl w⟩

/-- One invocation of `calculateAndAwardPoints` only advances the world. -/
theorem calculateAndAwardPoints_advances (r : Render) (fuel : Nat) (w : World) :
    ∃ cs, Advances w (calculateAndAwardPoints r fuel w).world cs := by
  unfold calculateAndAwardPoints
  split_ifs with h
  · exact ⟨[], by simpa [Outcome.world] using Advances.refl w⟩
  · obtain ⟨cs, hcs⟩ := improvementAward_advances r fuel w
    cases ho : improvementAward r fuel w with
    | running w1 =>
      rw [ho] at hcs
      exact ⟨cs, by simpa [Outcome.andThen, Outcome.world] using hcs⟩
    | done w1 =>
      rw [ho] at hcs
      simp only [Outcome.world] at hcs
      obtain ⟨ds, hds⟩ := awardMilestones_advances r fuel (newAchievements r) w1
      exact ⟨cs ++ ds, by simpa [Outcome.andThen, checkMilestoneAchievements] using hcs.trans hds⟩

theorem Advances.total_le {w w' : World} {cs : List Call} (h : Advances w w' cs) :
    w.doc.totalPoints ≤ w'.doc.totalPoints := by
  obtain ⟨-, b, c⟩ := h
  have : 0 ≤ (awardedPoints cs).sum := List.sum_nonneg fun q hq => le_of_lt (b q hq)
  omega

/-- The stored total is not smaller after a sequence of engine operations. -/
theorem runEngine_total_le (ops : List (Render × Nat)) :
    ∀ w : World, w.doc.totalPoints ≤ (runEngine ops w).doc.totalPoints := by
  induction ops with
  | nil => intro w; exact le_refl _
  | cons op ops ih =>
    intro w
    obtain ⟨r1, fuel1⟩ := op
    have hstep : w.doc.totalPoints ≤ (onAccuracyChange r1 fuel1 w).world.doc.totalPoints := by
      unfold onAccuracyChange
      split_ifs
      · obtain ⟨ds, hds⟩ := calculateAndAwardPoints_advances r1 fuel1 w
        exact hds.total_le
      · exact le_refl _
    exact le_trans hstep (ih _)

/-- When the level `n` computed from the render's total plus the bonus `n * 100` is again
`n`, above the render's level, the chain `levelUp n → awardPoints (n * 100) → levelUp n → …`
is still running at every call budget, and it makes no milestone award. -/
theorem levelUp_chain_running (r : Render) (n : Nat)
    (hfix : calculateLevel (r.totalPoints + (n : Int) * 100) = n) (hgt : n > r.currentLevel) :
    ∀ fuel : Nat,
      (∀ w : World, ∃ w', levelUp r fuel n w = .running w'
        ∧ milestoneAwards w'.calls = milestoneAwards w.calls)
      ∧ (∀ w : World, ∃ w',
          awardPoints r fuel ((n : Int) * 100) (.level_up n ((n : Int) * 100)) w = .running w'
        ∧ milestoneAwards w'.calls = milestoneAwards w.calls) := by
  intro fuel
  induction fuel with
  | zero => exact ⟨fun w => ⟨w, rfl, rfl⟩, fun w => ⟨w, rfl, rfl⟩⟩
  | succ fuel ih =>
    obtain ⟨ihL, ihA⟩ := ih
    constructor
    · intro w
      obtain ⟨w', h1, h2⟩ := ihA
        { doc := levelUpUpdate n w.doc, calls := w.calls ++ [.levelUp n] }
      refine ⟨w', ?_, ?_⟩
      · unfold levelUp; exact h1
      · rw [h2, milestoneAwards_append]; simp [milestoneAwards]
    · intro w
      obtain ⟨w', h1, h2⟩ := ihL
        { doc := awardPointsUpdate r ((n : Int) * 100) (.level_up n ((n : Int) * 100)) w.doc,
          calls := w.calls ++ [.awardPoints ((n : Int) * 100) (.level_up n ((n : Int) * 100))] }
      refine ⟨w', ?_, ?_⟩
      · unfold awardPoints
        simp only [hfix, hgt, if_true]
        exact h1
      · rw [h2, milestoneAwards_append]; simp [milestoneAwards]

/-- The milestone awards recorded by an award chain: the chain's first call when it is a
milestone award (and the budget let it start), nothing from the level-up calls. -/
theorem award_chain_milestoneAwards (r : Render) :
    ∀ fuel : Nat,
      (∀ (p : Int) (md : Metadata) (w : World),
        milestoneAwards (awardPoints r fuel p md w).world.calls
          = milestoneAwards w.calls
              ++ (if fuel = 0 then [] else milestoneAwards [.awardPoints p md]))
      ∧ (∀ (n : Nat) (w : World),
          milestoneAwards (levelUp r fuel n w).world.calls = milestoneAwards w.calls) := by
  intro fuel
  induction fuel with
  | zero =>
    exact ⟨fun p md w => by simp [awardPoints, Outcome.world],
      fun n w => by simp [levelUp, Outcome.world]⟩
  | succ fuel ih =>
    obtain ⟨ihA, ihL⟩ := ih
    constructor
    · intro p md w
      unfold awardPoints
      simp only [Nat.succ_ne_zero, if_false]
      split_ifs
      · rw [ihL, milestoneAwards_append]
      · simp [Outcome.world, milestoneAwards_append]
    · intro n w
      unfold levelUp
      simp only []
      rw [ihA, milestoneAwards_append]
      split_ifs <;> simp [milestoneAwards]

/-- The ids pushed by `checkMilestoneAchievements`, looked up in `MILESTONES`, are the
milestone awards of the specification. -/
theorem newAchievements_lookup (r : Render) :
    (newAchievements r).filterMap
        (fun id => (MILESTONES.find? (fun m => m.id == id)).map (fun m => (id, m.points)))
      = specMilestoneAwards (toNumber r.currentAccuracy) r.milestones := by
  have f80 : MILESTONES.find? (fun m => m.id == "accuracy_80")
      = some ⟨"accuracy_80", "80% Accuracy Achieved", 500, "🎯"⟩ := by decide
  have f90 : MILESTONES.find? (fun m => m.id == "accuracy_90")
      = some ⟨"accuracy_90", "90% Accuracy Achieved", 1000, "⭐"⟩ := by decide
  have f95 : MILESTONES.find? (fun m => m.id == "accuracy_95")
      = some ⟨"accuracy_95", "95% Accuracy Achieved", 2000, "🌟"⟩ := by decide
  have f99 : MILESTONES.find? (fun m => m.id == "perfect_recitation")
      = some ⟨"perfect_recitation", "Perfect Recitation", 5000, "👑"⟩ := by decide
  have fc : ∀ (p : String × ℚ × Int → Bool) (x : String × ℚ × Int) (xs : List (String × ℚ × Int)),
      List.filter p (x :: xs) = (if p x = true then [x] else []) ++ List.filter p xs := by
    intro p x xs
    by_cases h : p x = true <;> simp [List.filter_cons, h]
  unfold newAchievements specMilestoneAwards
  simp only [fc, List.filter_nil, List.map_append, List.filterMap_append, List.append_nil,
    List.append_assoc]
  refine congr_arg₂ (· ++ ·) ?_ (congr_arg₂ (· ++ ·) ?_ (congr_arg₂ (· ++ ·) ?_ ?_))
  · by_cases h : toNumber r.currentAccuracy ≥ 80 <;>
      by_cases m : "accuracy_80" ∈ r.milestones <;> simp [h, m, f80]
  · by_cases h : toNumber r.currentAccuracy ≥ 90 <;>
      by_cases m : "accuracy_90" ∈ r.milestones <;> simp [h, m, f90]
  · by_cases h : toNumber r.currentAccuracy ≥ 95 <;>
      by_cases m : "accuracy_95" ∈ r.milestones <;> simp [h, m, f95]
  · by_cases h : toNumber r.currentAccuracy ≥ 199 / 2 <;>
      by_cases m : "perfect_recitation" ∈ r.milestones <;> simp [h, m, f99]

/-- When the milestone loop returns, the milestone awards it recorded are those of the ids
it was given, in order, each with the points of its row of `MILESTONES`. -/
theorem awardMilestones_done (r : Render) (fuel : Nat) :
    ∀ (ids : List String) (w w' : World), awardMilestones r fuel ids w = .done w' →
      milestoneAwards w'.calls = milestoneAwards w.calls ++ ids.filterMap
        (fun id => (MILESTONES.find? (fun m => m.id == id)).map (fun m => (id, m.points))) := by
  intro ids
  induction ids with
  | nil =>
    intro w w' h
    simp only [awardMilestones, Outcome.done.injEq] at h
    simp [h]
  | cons achievementId rest ih =>
    intro w w' h
    unfold awardMilestones at h
    cases hf : MILESTONES.find? (fun m => m.id == achievementId) with
    | none =>
      rw [hf] at h
      simpa [hf] using ih w w' h
    | some m =>
      rw [hf] at h
      simp only [] at h
      have hA := (award_chain_milestoneAwards r fuel).1 m.points
        (.milestone_achievement m.name achievementId) w
      cases ho : awardPoints r fuel m.points (.milestone_achievement m.name achievementId) w with
      | running w1 => rw [ho] at h; simp [Outcome.andThen] at h
      | done w1 =>
        rw [ho] at h hA
        simp only [Outcome.andThen] at h
        have hfuel : fuel ≠ 0 := by
          rintro rfl
          simp [awardPoints] at ho
        have h2 := ih _ w' h
        simp only [Outcome.world, hfuel, if_false, milestoneAwards] at hA
        simp only [h2, hA, hf, List.filterMap_cons, Option.map_some']
        simp

/-- When `checkMilestoneAchievements` returns, the milestone awards it made are exactly
those of the specification. -/
theorem checkMilestoneAchievements_done (r : Render) (fuel : Nat) (w w' : World)
    (h : checkMilestoneAchievements r fuel w = .done w') :
    milestoneAwards w'.calls
      = milestoneAwards w.calls
          ++ specMilestoneAwards (toNumber r.currentAccuracy) r.milestones := by
  rw [← newAchievements_lookup]
  exact awardMilestones_done r fuel _ w w' h

/-! ## Theorems -/

/-- C1: the base points `max(0, floor(improvement * 10))` of the handler equal the
specified `floor(max(0, current - previous) * 10)` for all rational accuracies, and equal
`floor((current - previous) * 10)` when `previous ≤ current`. -/
theorem basePoints_eq_spec (previousAccuracy currentAccuracy : ℚ) :
    basePoints previousAccuracy currentAccuracy
        = ⌊max 0 (currentAccuracy - previousAccuracy) * 10⌋
      ∧ (previousAccuracy ≤ currentAccuracy →
          basePoints previousAccuracy currentAccuracy
            = ⌊(currentAccuracy - previousAccuracy) * 10⌋) := by
  refine ⟨basePoints_floor_max previousAccuracy currentAccuracy, fun h => ?_⟩
  rw [basePoints_floor_max, max_eq_right (sub_nonneg.mpr h)]

/-- Witness for C1 at previous = 85, current = 95. -/
theorem basePoints_eq_spec_witness :
    (85 : ℚ) ≤ 95 ∧ basePoints 85 95 = ⌊((95 : ℚ) - 85) * 10⌋ :=
  ⟨by norm_num, (basePoints_eq_spec 85 95).2 (by norm_num)⟩

/-- C2: the award computed by `calculateAndAwardPoints` is `floor(basePoints * bonusMultiplier)`
in exact arithmetic: it is the value of `finalPoints`, and the improvement step either makes
no call (award not positive) or starts with `awardPoints` carrying exactly that floor; for
previous = 85, current = 95 and no consistency bonus, base = 100, multiplier = 1.5 and
award = 150. -/
theorem finalPoints_eq_floor (r : Render) (fuel : Nat) (w : World) :
    finalPoints (toNumber r.previousAccuracy) (toNumber r.currentAccuracy)
        (checkConsistencyBonus r)
      = ⌊((basePoints (toNumber r.previousAccuracy) (toNumber r.currentAccuracy) : Int) : ℚ)
          * bonusMultiplier (toNumber r.currentAccuracy) (checkConsistencyBonus r)⌋
    ∧ (∃ rest, (improvementAward r (fuel + 1) w).world.calls = w.calls ++
        if 0 < ⌊((basePoints (toNumber r.previousAccuracy) (toNumber r.currentAccuracy) : Int) : ℚ)
            * bonusMultiplier (toNumber r.currentAccuracy) (checkConsistencyBonus r)⌋
        then Call.awardPoints
          ⌊((basePoints (toNumber r.previousAccuracy) (toNumber r.currentAccuracy) : Int) : ℚ)
            * bonusMultiplier (toNumber r.currentAccuracy) (checkConsistencyBonus r)⌋
          (.recitation_improvement
            (improvement (toNumber r.previousAccuracy) (toNumber r.currentAccuracy))
            (toNumber r.currentAccuracy)
            (basePoints (toNumber r.previousAccuracy) (toNumber r.currentAccuracy))
            (bonusMultiplier (toNumber r.currentAccuracy) (checkConsistencyBonus r))) :: rest
        else [])
    ∧ basePoints 85 95 = 100 ∧ bonusMultiplier 95 false = 3 / 2
    ∧ finalPoints 85 95 false = 150 := by
  refine ⟨rfl, ?_, ?_, ?_, ?_⟩
  · unfold improvementAward
    simp only [finalPoints]
    split_ifs with h
    · obtain ⟨cs, ⟨hc, -, -⟩, hfirst⟩ := (award_chain_advances r (fuel + 1)).1 _
        (.recitation_improvement
          (improvement (toNumber r.previousAccuracy) (toNumber r.currentAccuracy))
          (toNumber r.currentAccuracy)
          (basePoints (toNumber r.previousAccuracy) (toNumber r.currentAccuracy))
          (bonusMultiplier (toNumber r.currentAccuracy) (checkConsistencyBonus r))) w h
      obtain ⟨rest, rfl⟩ := hfirst (Nat.succ_ne_zero fuel)
      exact ⟨rest, hc⟩
    · exact ⟨[], by simp [Outcome.world]⟩
  · norm_num [basePoints, improvement]
  · norm_num [bonusMultiplier]
  · norm_num [finalPoints, basePoints, improvement, bonusMultiplier]

/-- C3: the bonus multiplier is `1 + t + (0.2 if consistent else 0)` where `t` is the sum of
the three tier terms with disjoint ranges (0.5 for `a ≥ 95`, 0.25 for `90 ≤ a < 95`,
0.1 for `80 ≤ a < 90`), so exactly one tier, or none below 80, contributes. -/
theorem bonusMultiplier_eq_tiers (currentAccuracy : ℚ) (consistencyBonus : Bool) :
    bonusMultiplier currentAccuracy consistencyBonus
      = 1 + specTierBonus currentAccuracy + (if consistencyBonus then 1 / 5 else 0) := by
  unfold bonusMultiplier specTierBonus
  by_cases h95 : currentAccuracy ≥ 95
  · have h1 : ¬ (90 ≤ currentAccuracy ∧ currentAccuracy < 95) := fun h => absurd h95 (not_le.mpr h.2)
    have h2 : ¬ (80 ≤ currentAccuracy ∧ currentAccuracy < 90) := fun h => by linarith [h.2]
    cases consistencyBonus <;> simp [h95, h1, h2]
  · by_cases h90 : currentAccuracy ≥ 90
    · have h1 : 90 ≤ currentAccuracy ∧ currentAccuracy < 95 := ⟨h90, not_le.mp h95⟩
      have h2 : ¬ (80 ≤ currentAccuracy ∧ currentAccuracy < 90) := fun h => absurd h90 (not_le.mpr h.2)
      cases consistencyBonus <;> simp [h95, h90, h1, h2]
    · by_cases h80 : currentAccuracy ≥ 80
      · have h1 : ¬ (90 ≤ currentAccuracy ∧ currentAccuracy < 95) := fun h => h90 h.1
        have h2 : 80 ≤ currentAccuracy ∧ currentAccuracy < 90 := ⟨h80, not_le.mp h90⟩
        cases consistencyBonus <;> simp [h95, h90, h80, h1, h2]
      · have h1 : ¬ (90 ≤ currentAccuracy ∧ currentAccuracy < 95) := fun h => h90 h.1
        have h2 : ¬ (80 ≤ currentAccuracy ∧ currentAccuracy < 90) := fun h => h80 h.1
        cases consistencyBonus <;> simp [h95, h90, h80, h1, h2]

/-- C4: when the final award is 0, and in particular when current ≤ previous, the
improvement step returns the world unchanged: no `awardPoints` call, and the stored
total, log and level are as before. -/
theorem improvementAward_zero_noop (r : Render) (fuel : Nat) (w : World) :
    (finalPoints (toNumber r.previousAccuracy) (toNumber r.currentAccuracy)
        (checkConsistencyBonus r) = 0 → improvementAward r fuel w = .done w)
    ∧ (toNumber r.currentAccuracy ≤ toNumber r.previousAccuracy →
        finalPoints (toNumber r.previousAccuracy) (toNumber r.currentAccuracy)
            (checkConsistencyBonus r) = 0
          ∧ improvementAward r fuel w = .done w) := by
  have key : finalPoints (toNumber r.previousAccuracy) (toNumber r.currentAccuracy)
      (checkConsistencyBonus r) = 0 → improvementAward r fuel w = .done w := by
    intro h
    unfold improvementAward
    simp [h]
  refine ⟨key, fun hle => ?_⟩
  have hz : finalPoints (toNumber r.previousAccuracy) (toNumber r.currentAccuracy)
      (checkConsistencyBonus r) = 0 := by
    have hb : basePoints (toNumber r.previousAccuracy) (toNumber r.currentAccuracy) = 0 := by
      rw [basePoints_floor_max, max_eq_left (sub_nonpos.mpr hle)]
      simp
    simp [finalPoints, hb]
  exact ⟨hz, key hz⟩

/-- Witness for C4: previous = 85, current = 80. -/
theorem improvementAward_zero_noop_witness :
    toNumber (some 80) ≤ toNumber (some 85)
      ∧ improvementAward ⟨"u", some 80, some 85, 100, 1, [], []⟩ 3 ⟨⟨100, 1, [], [], []⟩, []⟩
          = .done ⟨⟨100, 1, [], [], []⟩, []⟩ :=
  ⟨by norm_num [toNumber],
    (improvementAward_zero_noop ⟨"u", some 80, some 85, 100, 1, [], []⟩ 3
        ⟨⟨100, 1, [], [], []⟩, []⟩).1
      ((improvementAward_zero_noop ⟨"u", some 80, some 85, 100, 1, [], []⟩ 3
        ⟨⟨100, 1, [], [], []⟩, []⟩).2 (by norm_num [toNumber])).1⟩

/-- C5: for every total `points ≥ 0`, `calculateLevel points` is the greatest level among the
rows of `LEVEL_THRESHOLDS` whose points do not exceed the total: level 1 below 1000, 2 from
1000, 3 from 5000, 4 from 10000, 5 from 25000, 6 from 50000 and 7 from 100000. -/
theorem calculateLevel_isGreatest (points : Int) (h : 0 ≤ points) :
    IsSpecLevel points (calculateLevel points)
      ∧ calculateLevel points =
          (if points < 1000 then 1 else if points < 5000 then 2
            else if points < 10000 then 3 else if points < 25000 then 4
            else if points < 50000 then 5 else if points < 100000 then 6 else 7) := by
  constructor
  · constructor
    · show ∃ l ∈ LEVEL_THRESHOLDS, l.points ≤ points ∧ l.level = calculateLevel points
      rw [calculateLevel_eq]
      simp only [LEVEL_THRESHOLDS, List.mem_cons, List.mem_singleton, exists_eq_or_imp,
        exists_eq_left, List.not_mem_nil, false_and, exists_false, or_false]
      split_ifs <;> simp <;> omega
    · rintro k ⟨l, hl, hp, rfl⟩
      rw [calculateLevel_eq]
      simp only [LEVEL_THRESHOLDS, List.mem_cons, List.mem_singleton, List.not_mem_nil,
        or_false] at hl
      rcases hl with rfl | rfl | rfl | rfl | rfl | rfl | rfl <;> simp at hp ⊢ <;>
        split_ifs <;> omega
  · rw [calculateLevel_eq]
    split_ifs <;> first | rfl | omega

/-- Witness for C5 at 4999 points, the last total of level 2. -/
theorem calculateLevel_isGreatest_witness :
    (0 : Int) ≤ 4999 ∧ IsSpecLevel 4999 (calculateLevel 4999) ∧ calculateLevel 4999 = 2 :=
  ⟨by decide, (calculateLevel_isGreatest 4999 (by decide)).1, by decide⟩

/-- C6: in `LEVEL_THRESHOLDS` every row has a strictly larger level and strictly larger
points than the row before it, and the first row is level 1 at 0 points. -/
theorem level_thresholds_strictly_increasing :
    List.Chain' (fun a b : LevelThreshold => a.level < b.level ∧ a.points < b.points)
        LEVEL_THRESHOLDS
      ∧ LEVEL_THRESHOLDS.head?.map (fun l => (l.level, l.points)) = some (1, 0) := by
  constructor
  · simp [LEVEL_THRESHOLDS]
  · rfl

/-- C7: the stored `totalPoints` never decreases.  For one invocation of
`calculateAndAwardPoints`, at any call budget (so also along a chain that never ends), the
calls made all carry points > 0 when they are `awardPoints` calls, the stored total grows
by exactly their sum and so is not smaller than before; the two other writes leave the total
alone; and the total is non-decreasing over any sequence of engine operations. -/
theorem totalPoints_nondecreasing (r : Render) (fuel : Nat) (w : World)
    (ops : List (Render × Nat)) :
    (∃ cs, (calculateAndAwardPoints r fuel w).world.calls = w.calls ++ cs
        ∧ (∀ q ∈ awardedPoints cs, 0 < q)
        ∧ (calculateAndAwardPoints r fuel w).world.doc.totalPoints
            = w.doc.totalPoints + (awardedPoints cs).sum)
      ∧ w.doc.totalPoints ≤ (calculateAndAwardPoints r fuel w).world.doc.totalPoints
      ∧ (∀ n, (levelUpUpdate n w.doc).totalPoints = w.doc.totalPoints)
      ∧ (∀ id m, (milestoneUpdate r id m w.doc).totalPoints = w.doc.totalPoints)
      ∧ w.doc.totalPoints ≤ (runEngine ops w).doc.totalPoints := by
  obtain ⟨cs, hcs⟩ := calculateAndAwardPoints_advances r fuel w
  exact ⟨⟨cs, hcs⟩, hcs.total_le, fun _ => rfl, fun _ _ => rfl, runEngine_total_le ops w⟩

/-- C8: the write of `awardPoints(p, metadata)` adds exactly `p` to the stored total and
stores as `recentEarnings` the last 9 entries of the log `R` it reads (all of `R` when it
has at most 9), in order, followed by the new earning: the length is `min (|R| + 1) 10`,
at most 10, the new earning is last, and what is dropped is the oldest prefix of `R`. -/
theorem awardPoints_write (r : Render) (p : Int) (metadata : Metadata) (d : UserDoc) :
    (awardPointsUpdate r p metadata d).totalPoints = d.totalPoints + p
      ∧ (awardPointsUpdate r p metadata d).recentEarnings
          = r.recentEarnings.drop (r.recentEarnings.length - 9) ++ [⟨p, metadata⟩]
      ∧ (r.recentEarnings.length ≤ 9 →
          (awardPointsUpdate r p metadata d).recentEarnings
            = r.recentEarnings ++ [⟨p, metadata⟩])
      ∧ (awardPointsUpdate r p metadata d).recentEarnings.length
          = min (r.recentEarnings.length + 1) 10
      ∧ (awardPointsUpdate r p metadata d).recentEarnings.length ≤ 10
      ∧ (awardPointsUpdate r p metadata d).recentEarnings.getLast? = some ⟨p, metadata⟩
      ∧ r.recentEarnings ++ [⟨p, metadata⟩]
          = r.recentEarnings.take (r.recentEarnings.length - 9)
              ++ (awardPointsUpdate r p metadata d).recentEarnings
      ∧ (∀ (fuel : Nat) (w : World), calculateLevel (r.totalPoints + p) ≤ r.currentLevel →
          awardPoints r (fuel + 1) p metadata w
            = .done ⟨awardPointsUpdate r p metadata w.doc,
                w.calls ++ [.awardPoints p metadata]⟩) := by
  refine ⟨rfl, rfl, ?_, ?_, ?_, ?_, ?_, ?_⟩
  · intro h
    simp [awardPointsUpdate, sliceLast, Nat.sub_eq_zero_of_le h]
  · simp [awardPointsUpdate, sliceLast]; omega
  · simp [awardPointsUpdate, sliceLast]; omega
  · simp [awardPointsUpdate]
  · simp [awardPointsUpdate, sliceLast, ← List.append_assoc]
  · intro fuel w h
    unfold awardPoints
    simp [not_lt.mpr h]

/-- Witness for C8: a log of one entry, 50 points awarded at total 0, level 1. -/
theorem awardPoints_write_witness :
    (awardPointsUpdate ⟨"u", some 90, some 85, 0, 1, [⟨10, .level_up 1 10⟩], []⟩ 50
        (.level_up 1 50) ⟨0, 1, [], [], []⟩).recentEarnings
        = [⟨10, .level_up 1 10⟩] ++ [⟨50, .level_up 1 50⟩]
      ∧ awardPoints ⟨"u", some 90, some 85, 0, 1, [⟨10, .level_up 1 10⟩], []⟩ (0 + 1) 50
          (.level_up 1 50) ⟨⟨0, 1, [], [], []⟩, []⟩
        = .done ⟨awardPointsUpdate ⟨"u", some 90, some 85, 0, 1, [⟨10, .level_up 1 10⟩], []⟩ 50
            (.level_up 1 50) ⟨0, 1, [], [], []⟩, [] ++ [.awardPoints 50 (.level_up 1 50)]⟩ :=
  ⟨(awardPoints_write ⟨"u", some 90, some 85, 0, 1, [⟨10, .level_up 1 10⟩], []⟩ 50
      (.level_up 1 50) ⟨0, 1, [], [], []⟩).2.2.1 (by decide),
    (awardPoints_write ⟨"u", some 90, some 85, 0, 1, [⟨10, .level_up 1 10⟩], []⟩ 50
      (.level_up 1 50) ⟨0, 1, [], [], []⟩).2.2.2.2.2.2.2 0 ⟨⟨0, 1, [], [], []⟩, []⟩ (by decide)⟩

/-- C9 (the code at a failing input): at accuracy 90 with an empty milestone list the check
pays `accuracy_80` and `accuracy_90` and returns, but the list it leaves in the store is
`["accuracy_90"]` only; run again at the same accuracy on the stored state, the check pays
`accuracy_80` a second time. -/
theorem milestone_paid_twice :
    checkMilestoneAchievements reobservedRender 3 ⟨reobservedDoc, []⟩
        = .done ⟨reobservedDocAfter,
            [.awardPoints 500 (.milestone_achievement "80% Accuracy Achieved" "accuracy_80"),
             .awardPoints 1000 (.milestone_achievement "90% Accuracy Achieved" "accuracy_90")]⟩
      ∧ reobservedDocAfter.milestones = ["accuracy_90"]
      ∧ (snapshot reobservedRender reobservedDocAfter).currentAccuracy
          = reobservedRender.currentAccuracy
      ∧ milestoneAwards
          (checkMilestoneAchievements (snapshot reobservedRender reobservedDocAfter) 3
            ⟨reobservedDocAfter, []⟩).world.calls = [("accuracy_80", 500)] := by
  have h1 : newAchievements reobservedRender = ["accuracy_80", "accuracy_90"] := by
    norm_num [newAchievements, toNumber, reobservedRender]
  have h2 : newAchievements (snapshot reobservedRender reobservedDocAfter) = ["accuracy_80"] := by
    norm_num [newAchievements, toNumber, reobservedRender, snapshot, reobservedDocAfter]
    decide
  refine ⟨?_, rfl, rfl, ?_⟩
  · unfold checkMilestoneAchievements
    rw [h1]
    rfl
  · unfold checkMilestoneAchievements
    rw [h2]
    rfl

/-- C10 (the code at a failing input): at accuracy 90 with an empty milestone list, 900
points and level 1, the ids to award are `accuracy_80` and `accuracy_90`, but the check is
still running at every call budget and its milestone awards are `accuracy_80` alone: the
level-up chain started by the first award never returns, so `accuracy_90` is never paid. -/
theorem milestone_check_never_reaches_second (fuel : Nat) :
    newAchievements thresholdRender = ["accuracy_80", "accuracy_90"]
      ∧ ∃ w', checkMilestoneAchievements thresholdRender fuel ⟨thresholdDoc, []⟩ = .running w'
          ∧ milestoneAwards w'.calls = if fuel = 0 then [] else [("accuracy_80", 500)] := by
  have h1 : newAchievements thresholdRender = ["accuracy_80", "accuracy_90"] := by
    norm_num [newAchievements, toNumber, thresholdRender]
  refine ⟨h1, ?_⟩
  unfold checkMilestoneAchievements
  rw [h1]
  cases fuel with
  | zero => exact ⟨⟨thresholdDoc, []⟩, rfl, rfl⟩
  | succ fuel =>
    have hfind : MILESTONES.find? (fun m => m.id == "accuracy_80")
        = some ⟨"accuracy_80", "80% Accuracy Achieved", 500, "🎯"⟩ := by decide
    obtain ⟨w', hw, hm⟩ := (levelUp_chain_running thresholdRender 2 (by decide) (by decide) fuel).1
      { doc := awardPointsUpdate thresholdRender 500
          (.milestone_achievement "80% Accuracy Achieved" "accuracy_80") thresholdDoc,
        calls := [.awardPoints 500 (.milestone_achievement "80% Accuracy Achieved" "accuracy_80")] }
    refine ⟨w', ?_, ?_⟩
    · unfold awardMilestones
      rw [hfind]
      simp only []
      have hcall : awardPoints thresholdRender (fuel + 1) 500
          (.milestone_achievement "80% Accuracy Achieved" "accuracy_80") ⟨thresholdDoc, []⟩
          = .running w' := by
        unfold awardPoints
        have hl : calculateLevel (thresholdRender.totalPoints + 500) = 2 := by decide
        have hc : thresholdRender.currentLevel = 1 := rfl
        simp only [hl, hc]
        exact hw
      rw [hcall]
      rfl
    · rw [hm]
      simp [milestoneAwards]

/-! ## Lemmas on the level-up chain and the consistency bonus -/

/-- The body of `awardPoints` with a call to spare: it calls `levelUp` exactly when the level
of the render's total plus the points is above the render's level. -/
theorem awardPoints_succ (r : Render) (fuel : Nat) (p : Int) (md : Metadata) (w : World) :
    awardPoints r (fuel + 1) p md w =
      if calculateLevel (r.totalPoints + p) > r.currentLevel then
        levelUp r fuel (calculateLevel (r.totalPoints + p))
          ⟨awardPointsUpdate r p md w.doc, w.calls ++ [.awardPoints p md]⟩
      else .done ⟨awardPointsUpdate r p md w.doc, w.calls ++ [.awardPoints p md]⟩ := by
  rw [awardPoints]

/-- The body of `levelUp` with a call to spare: it stores the level it was given and awards
that level times 100 through `awardPoints`. -/
theorem levelUp_succ (r : Render) (fuel n : Nat) (w : World) :
    levelUp r (fuel + 1) n w =
      awardPoints r fuel ((n : Int) * 100) (.level_up n ((n : Int) * 100))
        ⟨levelUpUpdate n w.doc, w.calls ++ [.levelUp n]⟩
      ∧ (levelUpUpdate n w.doc).currentLevel = n := by
  constructor
  · rw [levelUp]
  · rfl

theorem sliceLast_eq_reverse_take {α : Type} (n : Nat) (xs : List α) :
    sliceLast n xs = (xs.reverse.take n).reverse := by
  unfold sliceLast
  rw [List.reverse_take, List.reverse_reverse]
  simp

/-! ## Theorems on the level-up chain -/

/-- C11 (the code at a failing input): from 750 points at level 1, `awardPoints(5000)`
returns after the calls `awardPoints 5000, levelUp 3, awardPoints 300, levelUp 2,
awardPoints 200`: the persisted level is 3 after the second call and is then lowered to 2,
the level the store is left with. -/
theorem persisted_level_lowered :
    awardPoints jumpRender 5 5000
        (.milestone_achievement "Perfect Recitation" "perfect_recitation") ⟨jumpDoc, []⟩
      = .done ⟨⟨6250, 2, [⟨200, .level_up 2 200⟩], [], []⟩,
          [.awardPoints 5000 (.milestone_achievement "Perfect Recitation" "perfect_recitation"),
           .levelUp 3, .awardPoints 300 (.level_up 3 300),
           .levelUp 2, .awardPoints 200 (.level_up 2 200)]⟩
      ∧ (awardPoints jumpRender 2 5000
          (.milestone_achievement "Perfect Recitation" "perfect_recitation")
          ⟨jumpDoc, []⟩).world.doc.currentLevel = 3
      ∧ (awardPoints jumpRender 5 5000
          (.milestone_achievement "Perfect Recitation" "perfect_recitation")
          ⟨jumpDoc, []⟩).world.doc.currentLevel = 2
      ∧ persistedLevels (awardPoints jumpRender 5 5000
          (.milestone_achievement "Perfect Recitation" "perfect_recitation")
          ⟨jumpDoc, []⟩).world.calls = [3, 2] := by
  refine ⟨?_, ?_, ?_, ?_⟩ <;> rfl

/-- C12 (the code at failing inputs): from 700 points at level 1 (the level of 700),
`awardPoints(5000)` and its bonuses return and leave 6200 points at level 2, while the level
of 6200 points is 3; and from 900 points at level 1 (the level of 900), `awardPoints(4000)`
is still running at every call budget, the store holding 5100 points at level 2 after the
first bonus. -/
theorem level_not_restored (fuel : Nat) :
    crossingRender.currentLevel = calculateLevel crossingRender.totalPoints
      ∧ awardPoints crossingRender 5 5000
          (.milestone_achievement "Perfect Recitation" "perfect_recitation") ⟨crossingDoc, []⟩
        = .done ⟨⟨6200, 2, [⟨200, .level_up 2 200⟩], [], []⟩,
            [.awardPoints 5000 (.milestone_achievement "Perfect Recitation" "perfect_recitation"),
             .levelUp 3, .awardPoints 300 (.level_up 3 300),
             .levelUp 2, .awardPoints 200 (.level_up 2 200)]⟩
      ∧ calculateLevel 6200 = 3
      ∧ thresholdRender.currentLevel = calculateLevel thresholdRender.totalPoints
      ∧ (∃ w', awardPoints thresholdRender fuel 4000 (.level_up 0 4000) ⟨thresholdDoc, []⟩
          = .running w')
      ∧ (awardPoints thresholdRender 4 4000 (.level_up 0 4000)
          ⟨thresholdDoc, []⟩).world.doc.totalPoints = 5100
      ∧ (awardPoints thresholdRender 4 4000 (.level_up 0 4000)
          ⟨thresholdDoc, []⟩).world.doc.currentLevel = 2
      ∧ calculateLevel 5100 = 3 := by
  refine ⟨by decide, rfl, by decide, by decide, ?_, rfl, rfl, by decide⟩
  cases fuel with
  | zero => exact ⟨_, rfl⟩
  | succ fuel =>
    obtain ⟨w', hw, -⟩ :=
      (levelUp_chain_running thresholdRender 2 (by decide) (by decide) fuel).1
        ⟨awardPointsUpdate thresholdRender 4000 (.level_up 0 4000) thresholdDoc,
          [.awardPoints 4000 (.level_up 0 4000)]⟩
    refine ⟨w', ?_⟩
    rw [awardPoints_succ]
    have hl : calculateLevel (thresholdRender.totalPoints + 4000) = 2 := by decide
    have hc : thresholdRender.currentLevel = 1 := rfl
    simp only [hl, hc]
    exact hw

/-! ## Lemmas on the correction engine -/

theorem addNotification_calls (n : Note) (w : Engine) :
    (addNotification n w).calls = w.calls ∧ (addNotification n w).requests = w.requests
      ∧ (addNotification n w).state.correctionStatus = w.state.correctionStatus
      ∧ (addNotification n w).state.selectedExpert = w.state.selectedExpert
      ∧ (addNotification n w).state.availableExperts = w.state.availableExperts :=
  ⟨rfl, rfl, rfl, rfl, rfl⟩

/-- What `assignExpert` leaves: the expert selected, status `assigned`, one call recorded,
no request added, whatever the render's request and the outcome of the post. -/
theorem assignExpert_effect (r : Component) (env : External) (expert : Expert) (w : Engine) :
    (assignExpert r env expert w).state.selectedExpert = some expert
      ∧ (assignExpert r env expert w).state.correctionStatus = .assigned
      ∧ (assignExpert r env expert w).calls = w.calls ++ [.assignExpert expert.id]
      ∧ (assignExpert r env expert w).requests = w.requests
      ∧ (assignExpert r env expert w).state.availableExperts = w.state.availableExperts := by
  unfold assignExpert
  simp only []
  split
  · split_ifs <;> simp [addNotification]
  · simp

/-- What `initiateCorrectionRequest` leaves when the analysis result is present and `addDoc`
succeeds. -/
theorem initiateCorrectionRequest_ok (r : Component) (env : External) (w : Engine)
    (a : AnalysisResult) (ha : r.analysisResult = some a) (hadd : env.addDocOk = true) :
    (initiateCorrectionRequest r env w).state.availableExperts = findMatchingExperts r env
      ∧ (initiateCorrectionRequest r env w).state.selectedExpert
          = ((findMatchingExperts r env).head?).orElse (fun _ => w.state.selectedExpert)
      ∧ (initiateCorrectionRequest r env w).calls
          = w.calls ++ .initiateCorrectionRequest
              :: ((findMatchingExperts r env).head?).toList.map (fun e => .assignExpert e.id)
      ∧ (initiateCorrectionRequest r env w).state.correctionStatus
          = (if (findMatchingExperts r env).isEmpty then w.state.correctionStatus
              else .assigned)
      ∧ (initiateCorrectionRequest r env w).requests
          = w.requests ++ [⟨env.now, r.userId, a, .pending, calculatePriority a.accuracy,
              guaranteedResponseBy env.now⟩]
      ∧ (initiateCorrectionRequest r env w).timers = w.timers ++ [⟨responseTimerDelay, r⟩] := by
  unfold initiateCorrectionRequest
  simp only [ha, hadd, if_true]
  cases hf : findMatchingExperts r env with
  | nil => simp [startResponseTimer, addNotification]
  | cons e rest =>
    simp only [List.head?_cons, Option.orElse, Option.toList, List.map_cons, List.map_nil,
      List.isEmpty_cons, Bool.false_eq_true, if_false]
    have h := assignExpert_effect r env e
      (startResponseTimer r
        { state := { w.state with
            loading := true, requestStartTime := some env.startedAt,
            availableExperts := e :: rest,
            correctionRequest := some ⟨env.now, r.userId, a, .pending,
              calculatePriority a.accuracy, guaranteedResponseBy env.now⟩ }
          timers := w.timers
          requests := w.requests ++ [⟨env.now, r.userId, a, .pending,
              calculatePriority a.accuracy, guaranteedResponseBy env.now⟩]
          notified := w.notified
          calls := w.calls ++ [.initiateCorrectionRequest] })
    obtain ⟨h1, h2, h3, h4, h5⟩ := h
    refine ⟨?_, ?_, ?_, ?_, ?_, ?_⟩
    · simpa [addNotification] using h5
    · simpa [addNotification] using h1
    · simpa [addNotification, startResponseTimer] using h3
    · simpa [addNotification] using h2
    · simpa [addNotification, startResponseTimer] using h4
    · simp [addNotification, assignExpert, startResponseTimer]
      split <;> (try split_ifs) <;> simp [addNotification]

/-- What `initiateCorrectionRequest` leaves when the analysis result is missing or `addDoc`
fails: no request, no timer, no assignment. -/
theorem initiateCorrectionRequest_failed (r : Component) (env : External) (w : Engine)
    (h : r.analysisResult = none ∨ env.addDocOk = false) :
    (initiateCorrectionRequest r env w).requests = w.requests
      ∧ (initiateCorrectionRequest r env w).timers = w.timers
      ∧ (initiateCorrectionRequest r env w).calls = w.calls ++ [.initiateCorrectionRequest]
      ∧ (initiateCorrectionRequest r env w).state.correctionStatus = w.state.correctionStatus
      ∧ (initiateCorrectionRequest r env w).state.selectedExpert = w.state.selectedExpert := by
  unfold initiateCorrectionRequest
  cases ha : r.analysisResult with
  | none => simp
  | some a =>
    rcases h with h | h
    · simp [ha] at h
    · simp [h]

/-- What `escalateToSeniorExpert` does with the pool of the render it is a closure of: it
assigns the first expert of level `senior` in that pool, and without one it changes neither
the selected expert nor the status. -/
theorem escalateToSeniorExpert_effect (r : Component) (env : External) (w : Engine) :
    (escalateToSeniorExpert r env w).state.selectedExpert
        = (r.availableExperts.find? (fun e => decide (e.level = .senior))).orElse
            (fun _ => w.state.selectedExpert)
      ∧ (escalateToSeniorExpert r env w).state.correctionStatus
          = (if (r.availableExperts.find? (fun e => decide (e.level = .senior))).isSome
              then .assigned else w.state.correctionStatus) := by
  unfold escalateToSeniorExpert
  simp only []
  cases hf : r.availableExperts.filter (fun e => decide (e.level = .senior)) with
  | nil =>
    have hnone : r.availableExperts.find? (fun e => decide (e.level = .senior)) = none := by
      rw [List.find?_eq_none]
      intro x hx hp
      have : x ∈ r.availableExperts.filter (fun e => decide (e.level = .senior)) :=
        List.mem_filter.mpr ⟨hx, hp⟩
      rw [hf] at this
      exact absurd this (List.not_mem_nil x)
    simp [hnone]
  | cons e rest =>
    have hsome : r.availableExperts.find? (fun e => decide (e.level = .senior)) = some e := by
      have := List.filter_head? (fun e : Expert => decide (e.level = .senior)) r.availableExperts
      rw [hf] at this
      simpa using this.symm
    obtain ⟨h1, h2, -, -, -⟩ := assignExpert_effect r env e
      { w with calls := w.calls ++ [.escalateToSeniorExpert] }
    simp [hsome, addNotification, h1, h2]

theorem updateResponseTime_status (u : Option Nat) (w : Engine) :
    (updateResponseTime u w).state.correctionStatus = w.state.correctionStatus := by
  unfold updateResponseTime
  split <;> rfl

/-- The status after the snapshot callback is the status the document reports. -/
theorem onSnapshotDoc_status (d : RequestDoc) (w : Engine) :
    (onSnapshotDoc d w).state.correctionStatus = d.status := by
  unfold onSnapshotDoc
  simp only [updateResponseTime_status]
  cases d.humanFeedback <;> cases d.scholarReview <;> simp <;> split_ifs <;> simp

/-- With the answers of `poolEnv`, the matching returns the junior then the senior expert
whenever an analysis result is present. -/
theorem findMatchingExperts_poolEnv (r : Component) :
    findMatchingExperts r poolEnv
      = if r.analysisResult.isSome then [juniorExpert, seniorExpert] else [] := by
  unfold findMatchingExperts
  cases r.analysisResult with
  | none => simp
  | some a =>
    simp only [poolEnv, Option.isSome_some, if_true]
    norm_num [juniorExpert, seniorExpert]

theorem senior_of_pool :
    List.filter (fun expert : Expert => decide (expert.level = ExpertLevel.senior))
      [juniorExpert, seniorExpert] = [seniorExpert] := rfl

theorem poolEnv_fields : poolEnv.addDocOk = true ∧ poolEnv.notifyOk = true
    ∧ poolEnv.now = 1000 ∧ poolEnv.startedAt = 1000 := ⟨rfl, rfl, rfl, rfl⟩

/-! ## Theorems on the correction engine and the consistency bonus -/

/-- C13: `calculatePriority` gives `high` exactly below 70, `medium` exactly from 70 to
below 85 and `low` exactly from 85, so each accuracy has one priority; 60 is `high` and 80 is
`medium`. -/
theorem calculatePriority_ranges (accuracy : ℚ) :
    (calculatePriority accuracy = .high ↔ accuracy < 70)
      ∧ (calculatePriority accuracy = .medium ↔ 70 ≤ accuracy ∧ accuracy < 85)
      ∧ (calculatePriority accuracy = .low ↔ 85 ≤ accuracy)
      ∧ calculatePriority 60 = .high ∧ calculatePriority 80 = .medium := by
  refine ⟨?_, ?_, ?_, ?_, ?_⟩
  · unfold calculatePriority
    split_ifs with h1 h2 <;> simp [h1]
  · unfold calculatePriority
    split_ifs with h1 h2
    · simp; intro h; linarith
    · simp [h2, not_lt.mp h1]
    · simp; intro _; exact not_lt.mp h2
  · unfold calculatePriority
    split_ifs with h1 h2
    · simp; linarith
    · simp; linarith
    · simp [not_lt.mp h2]
  · norm_num [calculatePriority]
  · norm_num [calculatePriority]

/-- C14: the effect of lines 47-51 invokes `initiateCorrectionRequest` exactly when an
analysis result is present with accuracy < 95; for an accuracy of 95 or more nothing is
invoked and nothing changes; and every request the effect adds carries the accuracy of the
render's analysis result, which is below 95, and the priority `calculatePriority` gives it. -/
theorem initiation_guard (r : Component) (env : External) (w : Engine) :
    (HafizCall.initiateCorrectionRequest ∈ (onAnalysisResult r env w).calls.drop w.calls.length
        ↔ ∃ a, r.analysisResult = some a ∧ a.accuracy < 95)
      ∧ (∀ a, r.analysisResult = some a → 95 ≤ a.accuracy → onAnalysisResult r env w = w)
      ∧ (r.analysisResult = none → onAnalysisResult r env w = w)
      ∧ (∀ q ∈ (onAnalysisResult r env w).requests.drop w.requests.length,
          r.analysisResult = some q.analysisResult ∧ q.analysisResult.accuracy < 95
            ∧ q.priority = calculatePriority q.analysisResult.accuracy
            ∧ (q.priority = .high ∨ q.priority = .medium ∨ q.priority = .low)) := by
  unfold onAnalysisResult
  cases ha : r.analysisResult with
  | none => simp
  | some a =>
    by_cases hlt : a.accuracy < 95
    · simp only [hlt, if_true]
      refine ⟨?_, ?_, ?_, ?_⟩
      · constructor
        · intro _; exact ⟨a, rfl, hlt⟩
        · intro _
          cases hadd : env.addDocOk with
          | true =>
            rw [(initiateCorrectionRequest_ok r env w a ha hadd).2.2.1]
            simp
          | false =>
            rw [(initiateCorrectionRequest_failed r env w (Or.inr hadd)).2.2.1]
            simp
      · intro b hb hge
        cases hb
        exact absurd hlt (not_lt.mpr hge)
      · intro h; cases h
      · intro q hq
        cases hadd : env.addDocOk with
        | true =>
          rw [(initiateCorrectionRequest_ok r env w a ha hadd).2.2.2.2.1] at hq
          simp at hq
          subst hq
          refine ⟨rfl, hlt, rfl, ?_⟩
          cases calculatePriority a.accuracy <;> simp
        | false =>
          rw [(initiateCorrectionRequest_failed r env w (Or.inr hadd)).1] at hq
          simp at hq
    · simp only [hlt, if_false]
      refine ⟨?_, ?_, ?_, ?_⟩
      · simp only [List.drop_length, List.not_mem_nil, false_iff, not_exists, not_and]
        intro b hb
        cases hb
        exact hlt
      · intro b _ _; trivial
      · intro h; cases h
      · simp

/-- Witness for C14: an analysis result of accuracy 96 on the mounted component. -/
theorem initiation_guard_witness :
    onAnalysisResult { (mount "u").state with analysisResult := some ⟨96, none⟩ } poolEnv
        (mount "u") = mount "u" :=
  (initiation_guard { (mount "u").state with analysisResult := some ⟨96, none⟩ } poolEnv
    (mount "u")).2.1 ⟨96, none⟩ rfl (by norm_num)

/-- C17: when the matching service answers with a list, `findMatchingExperts` returns the
experts of that list with `available` true and rating ≥ 4.5, in the order of the list; and
`initiateCorrectionRequest` (the request once stored) stores that list as the pool, assigns
its first element when there is one, and makes no assignment when it is empty. -/
theorem expert_matching (r : Component) (env : External) (w : Engine) (a : AnalysisResult)
    (experts : List Expert) (ha : r.analysisResult = some a) (hx : env.experts = some experts)
    (hadd : env.addDocOk = true) :
    findMatchingExperts r env
        = experts.filter (fun e => e.available && decide (e.rating ≥ 9 / 2))
      ∧ (findMatchingExperts r env).Sublist experts
      ∧ (∀ e, e ∈ findMatchingExperts r env ↔ e ∈ experts ∧ e.available = true ∧ e.rating ≥ 9 / 2)
      ∧ (initiateCorrectionRequest r env w).state.availableExperts = findMatchingExperts r env
      ∧ (initiateCorrectionRequest r env w).state.selectedExpert
          = ((findMatchingExperts r env).head?).orElse (fun _ => w.state.selectedExpert)
      ∧ (initiateCorrectionRequest r env w).calls
          = w.calls ++ .initiateCorrectionRequest
              :: ((findMatchingExperts r env).head?).toList.map (fun e => .assignExpert e.id)
      ∧ (initiateCorrectionRequest r env w).state.correctionStatus
          = (if (findMatchingExperts r env).isEmpty then w.state.correctionStatus
              else .assigned) := by
  have hf : findMatchingExperts r env
      = experts.filter (fun e => e.available && decide (e.rating ≥ 9 / 2)) := by
    simp [findMatchingExperts, ha, hx]
  obtain ⟨h1, h2, h3, h4, -, -⟩ := initiateCorrectionRequest_ok r env w a ha hadd
  refine ⟨hf, ?_, ?_, h1, h2, h3, h4⟩
  · rw [hf]; exact List.filter_sublist _
  · intro e
    rw [hf]
    simp [List.mem_filter]

/-- Witness for C17: the mounted component with an analysis result of accuracy 60 and the
service returning the junior then the senior expert. -/
theorem expert_matching_witness :
    (initiateCorrectionRequest { (mount "u").state with analysisResult := some lowAnalysis }
        poolEnv (mount "u")).state.selectedExpert
      = ((findMatchingExperts { (mount "u").state with analysisResult := some lowAnalysis }
          poolEnv).head?).orElse (fun _ => (mount "u").state.selectedExpert) :=
  (expert_matching { (mount "u").state with analysisResult := some lowAnalysis } poolEnv
    (mount "u") lowAnalysis [juniorExpert, seniorExpert] rfl rfl rfl).2.2.2.2.1

/-- C19: the guarantee window has one value: `guaranteedResponseBy` is the creation instant
plus 1,800,000 ms, the deadline timer's delay is 1,800,000 ms, both are the 30 minutes of
`EXPERT_CONFIG.responseTimeGuarantee`, and the request and the timer that
`initiateCorrectionRequest` creates carry them. -/
theorem guarantee_window (t : Nat) (r : Component) (env : External) (w : Engine)
    (a : AnalysisResult) (ha : r.analysisResult = some a) (hadd : env.addDocOk = true) :
    guaranteedResponseBy t = t + 1800000
      ∧ responseTimerDelay = 1800000
      ∧ EXPERT_CONFIG_responseTimeGuarantee = 30
      ∧ EXPERT_CONFIG_responseTimeGuarantee * 60 * 1000 = responseTimerDelay
      ∧ guaranteedResponseBy t - t = EXPERT_CONFIG_responseTimeGuarantee * 60 * 1000
      ∧ (∀ q ∈ (initiateCorrectionRequest r env w).requests.drop w.requests.length,
          q.guaranteedResponseBy = env.now + 1800000)
      ∧ (∀ tm ∈ (initiateCorrectionRequest r env w).timers.drop w.timers.length,
          tm.delay = 1800000) := by
  obtain ⟨-, -, -, -, hr, ht⟩ := initiateCorrectionRequest_ok r env w a ha hadd
  refine ⟨rfl, rfl, rfl, rfl, ?_, ?_, ?_⟩
  · simp [guaranteedResponseBy, EXPERT_CONFIG_responseTimeGuarantee]
  · intro q hq
    rw [hr] at hq
    simp at hq
    subst hq
    rfl
  · intro tm htm
    rw [ht] at htm
    simp at htm
    subst htm
    rfl

/-- Witness for C19: creation at clock 1000 on the mounted component. -/
theorem guarantee_window_witness :
    guaranteedResponseBy 1000 = 1000 + 1800000 ∧ responseTimerDelay = 1800000 :=
  ⟨(guarantee_window 1000 { (mount "u").state with analysisResult := some lowAnalysis } poolEnv
      (mount "u") lowAnalysis rfl rfl).1,
    (guarantee_window 1000 { (mount "u").state with analysisResult := some lowAnalysis } poolEnv
      (mount "u") lowAnalysis rfl rfl).2.1⟩

/-- C20: `checkConsistencyBonus` is true exactly when, of the log's entries of type
`recitation_improvement` taken in order, the most recent five are kept, at least three are
kept and every kept entry has improvement > 0; entries of other types play no part: the
result on a log is the result on its improvement entries alone. -/
theorem checkConsistencyBonus_iff (r : Render) :
    (checkConsistencyBonus r = true ↔ specConsistencyBonus r.recentEarnings)
      ∧ checkConsistencyBonus r
          = checkConsistencyBonus
              { r with recentEarnings := r.recentEarnings.filter Earning.isImprovement } := by
  constructor
  · unfold checkConsistencyBonus specConsistencyBonus
    simp only [sliceLast_eq_reverse_take, Bool.and_eq_true, decide_eq_true_eq, List.all_eq_true,
      ge_iff_le]
    refine and_congr Iff.rfl ?_
    constructor
    · intro h e he i a b m hm
      have := h e he
      simpa [Earning.positiveImprovement, hm] using this
    · intro h e he
      have hmem : e ∈ r.recentEarnings.filter Earning.isImprovement := by
        have h1 := List.mem_reverse.mp he
        exact List.mem_reverse.mp (List.mem_of_mem_take h1)
      have himp : e.isImprovement = true := (List.mem_filter.mp hmem).2
      cases hmd : e.metadata with
      | recitation_improvement i a b m =>
        simpa [Earning.positiveImprovement, hmd] using h e he i a b m hmd
      | milestone_achievement x y => simp [Earning.isImprovement, hmd] at himp
      | level_up x y => simp [Earning.isImprovement, hmd] at himp
  · unfold checkConsistencyBonus
    simp only [List.filter_filter, Bool.and_self]

/-- C15 (the code at failing inputs): a request is initiated on the mounted component, a
store update moves it to `in-progress`, and the expiry of its timer still calls
`escalateToSeniorExpert`, because the callback reads the status of the render that started
the timer.  With a second request started while the first is assigned, the update moves the
status to `completed`, and the expiries then reassign to the senior expert and set the
status back to `assigned`. -/
theorem expiry_escalates_after_progress :
    (runEvents (mount "u")
        [.analysis (some lowAnalysis) poolEnv,
         .update (statusUpdate .inProgress)]).state.correctionStatus = .inProgress
      ∧ (runEvents (mount "u")
          [.analysis (some lowAnalysis) poolEnv, .update (statusUpdate .inProgress),
           .expiry poolEnv]).calls
          = [.initiateCorrectionRequest, .assignExpert "j", .escalateToSeniorExpert]
      ∧ (runEvents (mount "u")
          [.analysis (some lowAnalysis) poolEnv, .analysis (some lowerAnalysis) poolEnv,
           .update (statusUpdate .completed)]).state.correctionStatus = .completed
      ∧ (runEvents (mount "u")
          [.analysis (some lowAnalysis) poolEnv, .analysis (some lowerAnalysis) poolEnv,
           .update (statusUpdate .completed)]).state.selectedExpert = some juniorExpert
      ∧ (runEvents (mount "u")
          [.analysis (some lowAnalysis) poolEnv, .analysis (some lowerAnalysis) poolEnv,
           .update (statusUpdate .completed), .expiry poolEnv,
           .expiry poolEnv]).state.correctionStatus = .assigned
      ∧ (runEvents (mount "u")
          [.analysis (some lowAnalysis) poolEnv, .analysis (some lowerAnalysis) poolEnv,
           .update (statusUpdate .completed), .expiry poolEnv,
           .expiry poolEnv]).state.selectedExpert = some seniorExpert := by
  refine ⟨?_, ?_, ?_, ?_, ?_, ?_⟩ <;>
  · norm_num [runEvents, step, mount, onAnalysisResult, lowAnalysis, lowerAnalysis,
      initiateCorrectionRequest, findMatchingExperts_poolEnv, senior_of_pool, poolEnv_fields,
      startResponseTimer, assignExpert, addNotification, onSnapshotDoc, statusUpdate,
      updateResponseTime, responseTimerCallback, escalateToSeniorExpert]
    try rfl

/-- C16 (counterexample): the status is `completed` after a request was initiated and the
store reported `completed`; a further store update reporting `in-progress` makes it
`in-progress`, and a further analysis result, whose initiation calls `assignExpert`, makes
it `assigned`. -/
theorem completed_is_left :
    (runEvents (mount "u")
        [.analysis (some lowAnalysis) poolEnv,
         .update (statusUpdate .completed)]).state.correctionStatus = .completed
      ∧ (step (runEvents (mount "u")
          [.analysis (some lowAnalysis) poolEnv, .update (statusUpdate .completed)])
          (.update (statusUpdate .inProgress))).state.correctionStatus = .inProgress
      ∧ (step (runEvents (mount "u")
          [.analysis (some lowAnalysis) poolEnv, .update (statusUpdate .completed)])
          (.analysis (some lowerAnalysis) poolEnv)).state.correctionStatus = .assigned := by
  refine ⟨?_, ?_, ?_⟩ <;>
  · norm_num [runEvents, step, mount, onAnalysisResult, lowAnalysis, lowerAnalysis,
      initiateCorrectionRequest, findMatchingExperts_poolEnv, senior_of_pool, poolEnv_fields,
      startResponseTimer, assignExpert, addNotification, onSnapshotDoc, statusUpdate,
      updateResponseTime, responseTimerCallback, escalateToSeniorExpert]
    try rfl

/-- C16 (amended): a store update that reaches the listener sets the status to the status
the store reports, so `completed` is kept exactly when the store still reports `completed`;
`assignExpert` always sets the status to `assigned`. -/
theorem status_follows_store_and_assignment (d : RequestDoc) (r : Component) (env : External)
    (expert : Expert) (w : Engine) :
    (step w (.update d)).state.correctionStatus
        = (if w.state.correctionRequest.isSome then d.status else w.state.correctionStatus)
      ∧ (onSnapshotDoc d w).state.correctionStatus = d.status
      ∧ ((onSnapshotDoc d w).state.correctionStatus = .completed ↔ d.status = .completed)
      ∧ (assignExpert r env expert w).state.correctionStatus = .assigned := by
  refine ⟨?_, onSnapshotDoc_status d w, by rw [onSnapshotDoc_status],
    (assignExpert_effect r env expert w).2.1⟩
  unfold step
  split_ifs with h
  · exact onSnapshotDoc_status d w
  · rfl

/-- C18 (the code at a failing input): on the mounted component the matching service returns
the junior then the senior expert; the pool stored at initiation holds them and the junior is
assigned; the timer was started by the render whose pool is still empty, so at expiry
`escalateToSeniorExpert` is called, finds no senior expert, and the junior stays assigned. -/
theorem escalation_reads_empty_pool :
    (runEvents (mount "u") [.analysis (some lowAnalysis) poolEnv]).state.availableExperts
        = [juniorExpert, seniorExpert]
      ∧ (runEvents (mount "u") [.analysis (some lowAnalysis) poolEnv]).state.selectedExpert
          = some juniorExpert
      ∧ (runEvents (mount "u") [.analysis (some lowAnalysis) poolEnv]).timers.map
          (fun t => t.captured.availableExperts) = [[]]
      ∧ (runEvents (mount "u")
          [.analysis (some lowAnalysis) poolEnv, .expiry poolEnv]).calls
          = [.initiateCorrectionRequest, .assignExpert "j", .escalateToSeniorExpert]
      ∧ (runEvents (mount "u")
          [.analysis (some lowAnalysis) poolEnv, .expiry poolEnv]).state.selectedExpert
          = some juniorExpert := by
  refine ⟨?_, ?_, ?_, ?_, ?_⟩ <;>
  · norm_num [runEvents, step, mount, onAnalysisResult, lowAnalysis, lowerAnalysis,
      initiateCorrectionRequest, findMatchingExperts_poolEnv, senior_of_pool, poolEnv_fields,
      startResponseTimer, assignExpert, addNotification, onSnapshotDoc, statusUpdate,
      updateResponseTime, responseTimerCallback, escalateToSeniorExpert]
    try rfl

/-! ## Lemmas and theorems on awards, bounds and the progress display -/

theorem bonusMultiplier_bounds (currentAccuracy : ℚ) (consistencyBonus : Bool) :
    1 ≤ bonusMultiplier currentAccuracy consistencyBonus
      ∧ bonusMultiplier currentAccuracy consistencyBonus ≤ 17 / 10 := by
  unfold bonusMultiplier
  cases consistencyBonus <;> simp only [] <;> split_ifs <;> norm_num

theorem basePoints_nonneg (previousAccuracy currentAccuracy : ℚ) :
    0 ≤ basePoints previousAccuracy currentAccuracy :=
  le_max_left _ _

/-- A positive final award needs a positive improvement. -/
theorem improvement_pos_of_finalPoints_pos (previousAccuracy currentAccuracy : ℚ)
    (consistencyBonus : Bool)
    (h : 0 < finalPoints previousAccuracy currentAccuracy consistencyBonus) :
    0 < improvement previousAccuracy currentAccuracy := by
  by_contra hneg
  have hle : currentAccuracy ≤ previousAccuracy := by
    unfold improvement at hneg
    linarith
  have hb : basePoints previousAccuracy currentAccuracy = 0 := by
    rw [basePoints_floor_max, max_eq_left (sub_nonpos.mpr hle)]
    simp
  simp [finalPoints, hb] at h

/-- C21 (the code at a failing input): at accuracy 80, up from 75, with 2000 points, level 2
and no milestone, the invocation returns after an improvement award of 55 and the
`accuracy_80` milestone award of 500; the log stored at the end holds the milestone earning
alone, the improvement earning written before it having been replaced. -/
theorem improvement_earning_overwritten :
    (∃ w', calculateAndAwardPoints coAwardRender 3 ⟨coAwardDoc, []⟩ = .done w')
      ∧ awardedPoints (calculateAndAwardPoints coAwardRender 3 ⟨coAwardDoc, []⟩).world.calls
          = [55, 500]
      ∧ (improvementAward coAwardRender 3 ⟨coAwardDoc, []⟩).world.doc.recentEarnings.map
          (fun e => e.points) = [55]
      ∧ (calculateAndAwardPoints coAwardRender 3 ⟨coAwardDoc, []⟩).world.doc.recentEarnings
          = [⟨500, .milestone_achievement "80% Accuracy Achieved" "accuracy_80"⟩]
      ∧ (calculateAndAwardPoints coAwardRender 3 ⟨coAwardDoc, []⟩).world.doc.totalPoints
          = 2555 := by
  have hc : checkConsistencyBonus coAwardRender = false := rfl
  have hf : finalPoints 75 80 false = 55 := by
    norm_num [finalPoints, basePoints, improvement, bonusMultiplier]
  have hn : newAchievements coAwardRender = ["accuracy_80"] := by
    norm_num [newAchievements, toNumber, coAwardRender]
  have hi : improvementAward coAwardRender 3 ⟨coAwardDoc, []⟩
      = .done ⟨awardPointsUpdate coAwardRender 55
          (.recitation_improvement (improvement 75 80) 80 (basePoints 75 80)
            (bonusMultiplier 80 false)) coAwardDoc,
          [.awardPoints 55 (.recitation_improvement (improvement 75 80) 80 (basePoints 75 80)
            (bonusMultiplier 80 false))]⟩ := by
    have hcur : toNumber coAwardRender.currentAccuracy = 80 := rfl
    have hprev : toNumber coAwardRender.previousAccuracy = 75 := rfl
    unfold improvementAward
    simp only [hc, hcur, hprev, hf]
    rfl
  have hall : calculateAndAwardPoints coAwardRender 3 ⟨coAwardDoc, []⟩
      = awardMilestones coAwardRender 3 ["accuracy_80"]
          ⟨awardPointsUpdate coAwardRender 55
            (.recitation_improvement (improvement 75 80) 80 (basePoints 75 80)
              (bonusMultiplier 80 false)) coAwardDoc,
            [.awardPoints 55 (.recitation_improvement (improvement 75 80) 80 (basePoints 75 80)
              (bonusMultiplier 80 false))]⟩ := by
    have hguard : ¬ (coAwardRender.userId = "" ∨ coAwardRender.currentAccuracy = none
        ∨ coAwardRender.previousAccuracy = none) := by
      simp [coAwardRender]
    unfold calculateAndAwardPoints
    rw [if_neg hguard, hi]
    simp only [Outcome.andThen, checkMilestoneAchievements, hn]
  refine ⟨⟨_, by rw [hall]; rfl⟩, ?_, ?_, ?_, ?_⟩
  · rw [hall]; rfl
  · rw [hi]; rfl
  · rw [hall]; rfl
  · rw [hall]; rfl

/-- C24: base points are monotone in the improvement delta: when the delta of one accuracy
pair is at most the delta of another, its base points are at most the other's. -/
theorem basePoints_monotone (p1 c1 p2 c2 : ℚ) (h : c1 - p1 ≤ c2 - p2) :
    basePoints p1 c1 ≤ basePoints p2 c2 := by
  unfold basePoints improvement
  exact max_le_max (le_refl 0) (Int.floor_mono (by linarith))

/-- Witness for C24: deltas 5 and 10. -/
theorem basePoints_monotone_witness : basePoints 80 85 ≤ basePoints 85 95 :=
  basePoints_monotone 80 85 85 95 (by norm_num)

/-- C27 (the code at the claim's input): from 900 points at level 1, `awardPoints(150)` is
still running at every call budget; with a budget of 15 calls it has already made seven
`levelUp` calls, all for level 2. -/
theorem level_up_chain_endless (fuel : Nat) :
    (∃ w', awardPoints thresholdRender fuel 150 (.level_up 0 150) ⟨thresholdDoc, []⟩
        = .running w')
      ∧ persistedLevels (awardPoints thresholdRender 15 150 (.level_up 0 150)
          ⟨thresholdDoc, []⟩).world.calls = [2, 2, 2, 2, 2, 2, 2]
      ∧ (awardPoints thresholdRender 15 150 (.level_up 0 150)
          ⟨thresholdDoc, []⟩).world.doc.totalPoints = 2450 := by
  refine ⟨?_, rfl, rfl⟩
  cases fuel with
  | zero => exact ⟨_, rfl⟩
  | succ fuel =>
    obtain ⟨w', hw, -⟩ :=
      (levelUp_chain_running thresholdRender 2 (by decide) (by decide) fuel).1
        ⟨awardPointsUpdate thresholdRender 150 (.level_up 0 150) thresholdDoc,
          [.awardPoints 150 (.level_up 0 150)]⟩
    refine ⟨w', ?_⟩
    rw [awardPoints_succ]
    have hl : calculateLevel (thresholdRender.totalPoints + 150) = 2 := by decide
    have hc : thresholdRender.currentLevel = 1 := rfl
    simp only [hl, hc]
    exact hw

/-- C30: for accuracies in [0, 100] and either consistency flag, in exact arithmetic
`0 ≤ basePoints ≤ finalPoints ≤ floor(1.7 * basePoints) ≤ 1700`. -/
theorem award_bounds (previousAccuracy currentAccuracy : ℚ) (consistencyBonus : Bool)
    (hp0 : 0 ≤ previousAccuracy) (hp1 : previousAccuracy ≤ 100)
    (hc0 : 0 ≤ currentAccuracy) (hc1 : currentAccuracy ≤ 100) :
    0 ≤ basePoints previousAccuracy currentAccuracy
      ∧ basePoints previousAccuracy currentAccuracy
          ≤ finalPoints previousAccuracy currentAccuracy consistencyBonus
      ∧ finalPoints previousAccuracy currentAccuracy consistencyBonus
          ≤ ⌊(17 / 10 : ℚ) * (basePoints previousAccuracy currentAccuracy : ℚ)⌋
      ∧ ⌊(17 / 10 : ℚ) * (basePoints previousAccuracy currentAccuracy : ℚ)⌋ ≤ 1700 := by
  have hb0 := basePoints_nonneg previousAccuracy currentAccuracy
  have hb0q : (0 : ℚ) ≤ (basePoints previousAccuracy currentAccuracy : ℚ) := by exact_mod_cast hb0
  obtain ⟨hm1, hm2⟩ := bonusMultiplier_bounds currentAccuracy consistencyBonus
  have hb1 : basePoints previousAccuracy currentAccuracy ≤ 1000 := by
    unfold basePoints improvement
    refine max_le (by norm_num) ?_
    have : (currentAccuracy - previousAccuracy) * 10 ≤ ((1000 : Int) : ℚ) := by
      push_cast; linarith
    exact Int.cast_le.mp (le_trans (Int.floor_le _) this)
  have hb1q : (basePoints previousAccuracy currentAccuracy : ℚ) ≤ 1000 := by exact_mod_cast hb1
  refine ⟨hb0, ?_, ?_, ?_⟩
  · unfold finalPoints
    rw [Int.le_floor]
    nlinarith
  · unfold finalPoints
    apply Int.floor_mono
    rw [mul_comm]
    exact mul_le_mul_of_nonneg_right hm2 hb0q
  · have : (17 / 10 : ℚ) * (basePoints previousAccuracy currentAccuracy : ℚ)
        ≤ ((1700 : Int) : ℚ) := by
      push_cast; linarith
    exact Int.cast_le.mp (le_trans (Int.floor_le _) this)

/-- Witness for C30: previous = 0, current = 100, with the consistency bonus. -/
theorem award_bounds_witness :
    basePoints 0 100 ≤ finalPoints 0 100 true
      ∧ ⌊(17 / 10 : ℚ) * (basePoints 0 100 : ℚ)⌋ ≤ 1700 :=
  ⟨(award_bounds 0 100 true (by norm_num) (by norm_num) (by norm_num) (by norm_num)).2.1,
    (award_bounds 0 100 true (by norm_num) (by norm_num) (by norm_num) (by norm_num)).2.2.2⟩

theorem improvementsOf_append (xs ys : List Call) :
    improvementsOf (xs ++ ys) = improvementsOf xs ++ improvementsOf ys := by
  induction xs with
  | nil => rfl
  | cons c cs ih =>
    cases c with
    | levelUp n => simp [improvementsOf, ih]
    | awardPoints p md => cases md <;> simp [improvementsOf, ih]

/-- The improvement fields recorded by an award chain are those of its first call alone. -/
theorem award_chain_improvementsOf (r : Render) :
    ∀ fuel : Nat,
      (∀ (p : Int) (md : Metadata) (w : World),
        improvementsOf (awardPoints r fuel p md w).world.calls
          = improvementsOf w.calls
              ++ (if fuel = 0 then [] else improvementsOf [.awardPoints p md]))
      ∧ (∀ (n : Nat) (w : World),
          improvementsOf (levelUp r fuel n w).world.calls = improvementsOf w.calls) := by
  intro fuel
  induction fuel with
  | zero =>
    exact ⟨fun p md w => by simp [awardPoints, Outcome.world],
      fun n w => by simp [levelUp, Outcome.world]⟩
  | succ fuel ih =>
    obtain ⟨ihA, ihL⟩ := ih
    constructor
    · intro p md w
      unfold awardPoints
      simp only [Nat.succ_ne_zero, if_false]
      split_ifs
      · rw [ihL, improvementsOf_append]
      · simp [Outcome.world, improvementsOf_append]
    · intro n w
      unfold levelUp
      simp only []
      rw [ihA, improvementsOf_append]
      split_ifs <;> simp [improvementsOf]

/-- The milestone loop records no improvement award. -/
theorem awardMilestones_improvementsOf (r : Render) (fuel : Nat) :
    ∀ (ids : List String) (w : World),
      improvementsOf (awardMilestones r fuel ids w).world.calls = improvementsOf w.calls := by
  intro ids
  induction ids with
  | nil => intro w; rfl
  | cons achievementId rest ih =>
    intro w
    unfold awardMilestones
    cases hf : MILESTONES.find? (fun m => m.id == achievementId) with
    | none => simpa using ih w
    | some m =>
      have hA := (award_chain_improvementsOf r fuel).1 m.points
        (.milestone_achievement m.name achievementId) w
      simp only []
      cases ho : awardPoints r fuel m.points (.milestone_achievement m.name achievementId) w with
      | running w1 =>
        rw [ho] at hA
        simp only [Outcome.andThen, Outcome.world] at hA ⊢
        rw [hA]
        split_ifs <;> simp [improvementsOf]
      | done w1 =>
        rw [ho] at hA
        simp only [Outcome.world] at hA
        simp only [Outcome.andThen]
        rw [ih]
        simp only [hA]
        split_ifs <;> simp [improvementsOf]

/-- C28: every improvement award that `calculateAndAwardPoints` makes carries an improvement
above zero (at any call budget); and on a log whose improvement entries all have improvement
above zero, `checkConsistencyBonus` holds exactly when the log has at least three improvement
entries. -/
theorem engine_improvements_positive (r : Render) (fuel : Nat) (w : World)
    (log : List Earning)
    (hlog : ∀ e ∈ log, e.isImprovement = true → e.positiveImprovement = true) :
    (∀ i ∈ improvementsOf (calculateAndAwardPoints r fuel w).world.calls,
        i ∈ improvementsOf w.calls ∨ 0 < i)
      ∧ (checkConsistencyBonus { r with recentEarnings := log } = true
          ↔ 3 ≤ (log.filter Earning.isImprovement).length) := by
  constructor
  · have himp : ∀ i ∈ improvementsOf (improvementAward r fuel w).world.calls,
        i ∈ improvementsOf w.calls ∨ 0 < i := by
      unfold improvementAward
      simp only []
      split_ifs with hpos
      · rw [(award_chain_improvementsOf r fuel).1]
        intro i hi
        rw [List.mem_append] at hi
        rcases hi with hi | hi
        · exact Or.inl hi
        · right
          split_ifs at hi
          · simp at hi
          · simp only [improvementsOf, List.mem_singleton] at hi
            rw [hi]
            exact improvement_pos_of_finalPoints_pos _ _ _ hpos
      · intro i hi; exact Or.inl hi
    unfold calculateAndAwardPoints
    split_ifs
    · intro i hi; exact Or.inl hi
    · cases ho : improvementAward r fuel w with
      | running w1 =>
        rw [ho] at himp
        simpa [Outcome.andThen, Outcome.world] using himp
      | done w1 =>
        rw [ho] at himp
        simp only [Outcome.andThen, checkMilestoneAchievements, awardMilestones_improvementsOf]
        exact himp
  · unfold checkConsistencyBonus
    simp only [Bool.and_eq_true, decide_eq_true_eq, List.all_eq_true, ge_iff_le]
    have hall : ∀ e ∈ sliceLast 5 (log.filter Earning.isImprovement),
        e.positiveImprovement = true := by
      intro e he
      have hmem : e ∈ log.filter Earning.isImprovement := List.mem_of_mem_drop he
      exact hlog e (List.mem_filter.mp hmem).1 (List.mem_filter.mp hmem).2
    have hlen : (sliceLast 5 (log.filter Earning.isImprovement)).length
        = min (log.filter Earning.isImprovement).length 5 := by
      simp [sliceLast]; omega
    constructor
    · rintro ⟨h3, -⟩
      rw [hlen] at h3
      omega
    · intro h3
      refine ⟨?_, hall⟩
      rw [hlen]
      omega

/-- Witness for C28: a log of three improvement entries, each with improvement 1. -/
theorem engine_improvements_positive_witness :
    checkConsistencyBonus
        { coAwardRender with recentEarnings :=
            [⟨10, .recitation_improvement 1 50 10 1⟩, ⟨10, .recitation_improvement 1 51 10 1⟩,
             ⟨10, .recitation_improvement 1 52 10 1⟩] } = true
      ↔ 3 ≤ (([⟨10, .recitation_improvement 1 50 10 1⟩, ⟨10, .recitation_improvement 1 51 10 1⟩,
             ⟨10, .recitation_improvement 1 52 10 1⟩] : List Earning).filter
               Earning.isImprovement).length :=
  (engine_improvements_positive coAwardRender 3 ⟨coAwardDoc, []⟩
    [⟨10, .recitation_improvement 1 50 10 1⟩, ⟨10, .recitation_improvement 1 51 10 1⟩,
     ⟨10, .recitation_improvement 1 52 10 1⟩]
    (by
      intro e he _
      simp only [List.mem_cons, List.mem_singleton, List.not_mem_nil, or_false] at he
      rcases he with rfl | rfl | rfl <;> simp [Earning.positiveImprovement])).2

/-- The threshold of the render's level and the next threshold, for the levels 1 to 7. -/
theorem level_span_values (r : Render) (h1 : 1 ≤ r.currentLevel) (h7 : r.currentLevel ≤ 7) :
    ((getCurrentLevelInfo r).points, getNextLevelThreshold r.currentLevel)
      = (if r.currentLevel = 1 then (0, 1000) else if r.currentLevel = 2 then (1000, 5000)
          else if r.currentLevel = 3 then (5000, 10000)
          else if r.currentLevel = 4 then (10000, 25000)
          else if r.currentLevel = 5 then (25000, 50000)
          else if r.currentLevel = 6 then (50000, 100000) else (100000, 100000)) := by
  obtain ⟨u, a, p, t, c, e, m⟩ := r
  simp only at h1 h7 ⊢
  interval_cases c <;>
    simp [getCurrentLevelInfo, getNextLevelThreshold, LEVEL_THRESHOLDS]

/-- The range of totals of each level. -/
theorem level_ranges (points : Int) (h0 : 0 ≤ points) :
    (calculateLevel points = 1 ∧ points < 1000)
      ∨ (calculateLevel points = 2 ∧ 1000 ≤ points ∧ points < 5000)
      ∨ (calculateLevel points = 3 ∧ 5000 ≤ points ∧ points < 10000)
      ∨ (calculateLevel points = 4 ∧ 10000 ≤ points ∧ points < 25000)
      ∨ (calculateLevel points = 5 ∧ 25000 ≤ points ∧ points < 50000)
      ∨ (calculateLevel points = 6 ∧ 50000 ≤ points ∧ points < 100000)
      ∨ (calculateLevel points = 7 ∧ 100000 ≤ points) := by
  rw [calculateLevel_eq]
  split_ifs <;> simp <;> omega

/-- C29: in a state with `totalPoints ≥ 0`, `currentLevel = calculateLevel(totalPoints)` and
`currentLevel ≤ 6`, `getProgressPercentage` divides by a span of at least 1000 points and
returns a value in [0, 100); among the levels 1 to 7 the span is zero exactly at level 7,
where `getNextLevelThreshold` gives the last threshold, 100000. -/
theorem progress_percentage_range (r : Render) (h0 : 0 ≤ r.totalPoints)
    (hc : r.currentLevel = calculateLevel r.totalPoints) (h6 : r.currentLevel ≤ 6) :
    1000 ≤ pointsNeededForLevel r
      ∧ (∃ v, getProgressPercentage r = some v ∧ 0 ≤ v ∧ v < 100)
      ∧ (∀ r' : Render, 1 ≤ r'.currentLevel → r'.currentLevel ≤ 7 →
          (pointsNeededForLevel r' = 0 ↔ r'.currentLevel = 7))
      ∧ getNextLevelThreshold 7 = 100000 := by
  have h1 : 1 ≤ r.currentLevel := by rw [hc]; exact calculateLevel_pos _
  have hv := level_span_values r h1 (by omega)
  have hv1 := congrArg Prod.fst hv
  have hv2 := congrArg Prod.snd hv
  simp only at hv1 hv2
  have hspan : 1000 ≤ pointsNeededForLevel r
      ∧ (getCurrentLevelInfo r).points ≤ r.totalPoints
      ∧ r.totalPoints < getNextLevelThreshold r.currentLevel := by
    unfold pointsNeededForLevel
    rcases level_ranges r.totalPoints h0 with hk | hk | hk | hk | hk | hk | hk <;>
      rw [← hc] at hk <;> obtain ⟨hk, hr⟩ := hk <;>
      simp only [hk] at hv1 hv2 h6 <;> norm_num at hv1 hv2 h6 <;>
      rw [hk, hv1, hv2] <;> omega
  obtain ⟨hs, hlo, hhi⟩ := hspan
  refine ⟨hs, ?_, ?_, by decide⟩
  · have hne : pointsNeededForLevel r ≠ 0 := by omega
    have hposq : (0 : ℚ) < (pointsNeededForLevel r : ℚ) := by
      exact_mod_cast (by omega : (0 : Int) < pointsNeededForLevel r)
    have hnum0 : (0 : ℚ) ≤ ((r.totalPoints - (getCurrentLevelInfo r).points : Int) : ℚ) := by
      exact_mod_cast (by omega : (0 : Int) ≤ r.totalPoints - (getCurrentLevelInfo r).points)
    have hnum1 : ((r.totalPoints - (getCurrentLevelInfo r).points : Int) : ℚ)
        < (pointsNeededForLevel r : ℚ) := by
      have : r.totalPoints - (getCurrentLevelInfo r).points < pointsNeededForLevel r := by
        unfold pointsNeededForLevel; omega
      exact_mod_cast this
    have hq0 : 0 ≤ ((r.totalPoints - (getCurrentLevelInfo r).points : Int) : ℚ)
        / (pointsNeededForLevel r : ℚ) * 100 := by positivity
    have hq1 : ((r.totalPoints - (getCurrentLevelInfo r).points : Int) : ℚ)
        / (pointsNeededForLevel r : ℚ) * 100 < 100 := by
      have := (div_lt_one hposq).mpr hnum1
      linarith
    refine ⟨min 100 (((r.totalPoints - (getCurrentLevelInfo r).points : Int) : ℚ)
        / (pointsNeededForLevel r : ℚ) * 100), ?_, ?_, ?_⟩
    · simp only [getProgressPercentage, hne, if_false]
    · exact le_min (by norm_num) hq0
    · exact lt_of_le_of_lt (min_le_right _ _) hq1
  · intro r' h1' h7'
    have hv' := level_span_values r' h1' h7'
    have hv1' := congrArg Prod.fst hv'
    have hv2' := congrArg Prod.snd hv'
    simp only at hv1' hv2'
    unfold pointsNeededForLevel
    have hcases : r'.currentLevel = 1 ∨ r'.currentLevel = 2 ∨ r'.currentLevel = 3
        ∨ r'.currentLevel = 4 ∨ r'.currentLevel = 5 ∨ r'.currentLevel = 6
        ∨ r'.currentLevel = 7 := by omega
    rcases hcases with hk | hk | hk | hk | hk | hk | hk <;>
      simp only [hk] at hv1' hv2' <;> norm_num at hv1' hv2' <;>
      rw [hk, hv1', hv2'] <;> norm_num

/-- Witness for C29: 4999 points at level 2. -/
theorem progress_percentage_range_witness :
    1000 ≤ pointsNeededForLevel ⟨"u", some 80, some 75, 4999, 2, [], []⟩
      ∧ ∃ v, getProgressPercentage ⟨"u", some 80, some 75, 4999, 2, [], []⟩ = some v
          ∧ 0 ≤ v ∧ v < 100 :=
  ⟨(progress_percentage_range ⟨"u", some 80, some 75, 4999, 2, [], []⟩ (by decide) (by decide)
      (by decide)).1,
    (progress_percentage_range ⟨"u", some 80, some 75, 4999, 2, [], []⟩ (by decide) (by decide)
      (by decide)).2.1⟩

/-- The stored total after any sequence of writes is the total before plus the sum of the
increments the writes carry. -/
theorem applyWrites_total (ws : List StoreWrite) :
    ∀ d : UserDoc, (applyWrites ws d).totalPoints
      = d.totalPoints + (ws.map StoreWrite.increment).sum := by
  induction ws with
  | nil => intro d; simp [applyWrites]
  | cons w ws ih =>
    intro d
    have hstep : (w.apply d).totalPoints = d.totalPoints + w.increment := by
      cases w <;> simp [StoreWrite.apply, StoreWrite.increment, awardPointsUpdate,
        levelUpUpdate, milestoneUpdate]
    have := ih (w.apply d)
    simp only [applyWrites, List.foldl_cons, List.map_cons, List.sum_cons] at this ⊢
    rw [this, hstep]
    ring

/-- C23: two award writes for the same user both land.  Whatever the two renders hold, the
two `increment` writes applied in either order leave the pre-state total plus `p` plus `q`;
the stored total after any writes is the pre-state total plus the sum of their increments,
so it is the same for every order in which the store applies them; and two whole
`awardPoints` calls that trigger no level-up leave exactly the pre-state total plus `p`
plus `q`. -/
theorem concurrent_awards_both_land (r1 r2 : Render) (p q : Int) (m1 m2 : Metadata)
    (d : UserDoc) (ws ws' : List StoreWrite) (hperm : ws.Perm ws')
    (h1 : calculateLevel (r1.totalPoints + p) ≤ r1.currentLevel)
    (h2 : calculateLevel (r2.totalPoints + q) ≤ r2.currentLevel) :
    (applyWrites [.award r1 p m1, .award r2 q m2] d).totalPoints = d.totalPoints + p + q
      ∧ (applyWrites [.award r2 q m2, .award r1 p m1] d).totalPoints = d.totalPoints + p + q
      ∧ (applyWrites ws d).totalPoints = (applyWrites ws' d).totalPoints
      ∧ (applyWrites ws d).totalPoints = d.totalPoints + (ws.map StoreWrite.increment).sum
      ∧ ((awardPoints r1 1 p m1 ⟨d, []⟩).andThen
          (awardPoints r2 1 q m2)).world.doc.totalPoints = d.totalPoints + p + q
      ∧ ((awardPoints r2 1 q m2 ⟨d, []⟩).andThen
          (awardPoints r1 1 p m1)).world.doc.totalPoints = d.totalPoints + p + q := by
  refine ⟨?_, ?_, ?_, applyWrites_total ws d, ?_, ?_⟩
  · rw [applyWrites_total]; simp [StoreWrite.increment]; ring
  · rw [applyWrites_total]; simp [StoreWrite.increment]; ring
  · rw [applyWrites_total, applyWrites_total, (hperm.map StoreWrite.increment).sum_eq]
  · rw [awardPoints_succ, if_neg (not_lt.mpr h1)]
    simp only [Outcome.andThen]
    rw [awardPoints_succ, if_neg (not_lt.mpr h2)]
    simp [Outcome.world, awardPointsUpdate]
  · rw [awardPoints_succ, if_neg (not_lt.mpr h2)]
    simp only [Outcome.andThen]
    rw [awardPoints_succ, if_neg (not_lt.mpr h1)]
    simp [Outcome.world, awardPointsUpdate]
    ring

/-- Witness for C23: awards of 55 and 62 from two renders at 2000 points, level 2. -/
theorem concurrent_awards_both_land_witness :
    (applyWrites [.award coAwardRender 55 (.level_up 0 55),
        .award reobservedRender 62 (.level_up 0 62)] coAwardDoc).totalPoints = 2000 + 55 + 62
      ∧ (applyWrites [.award reobservedRender 62 (.level_up 0 62),
        .award coAwardRender 55 (.level_up 0 55)] coAwardDoc).totalPoints = 2000 + 55 + 62 :=
  ⟨(concurrent_awards_both_land coAwardRender reobservedRender 55 62 (.level_up 0 55)
      (.level_up 0 62) coAwardDoc
      [.award coAwardRender 55 (.level_up 0 55), .award reobservedRender 62 (.level_up 0 62)]
      [.award reobservedRender 62 (.level_up 0 62), .award coAwardRender 55 (.level_up 0 55)]
      (List.Perm.swap _ _ _) (by decide) (by decide)).1,
    (concurrent_awards_both_land coAwardRender reobservedRender 55 62 (.level_up 0 55)
      (.level_up 0 62) coAwardDoc
      [.award coAwardRender 55 (.level_up 0 55), .award reobservedRender 62 (.level_up 0 62)]
      [.award reobservedRender 62 (.level_up 0 62), .award coAwardRender 55 (.level_up 0 55)]
      (List.Perm.swap _ _ _) (by decide) (by decide)).2.1⟩

/-! ## Further theorems on the correction engine -/

/-- Without a matching expert, `initiateCorrectionRequest` changes neither the status nor
the selected expert, whatever else fails. -/
theorem initiateCorrectionRequest_no_expert (r : Component) (env : External) (w : Engine)
    (h : findMatchingExperts r env = []) :
    (initiateCorrectionRequest r env w).state.correctionStatus = w.state.correctionStatus
      ∧ (initiateCorrectionRequest r env w).state.selectedExpert = w.state.selectedExpert := by
  cases ha : r.analysisResult with
  | none =>
    obtain ⟨-, -, -, h4, h5⟩ := initiateCorrectionRequest_failed r env w (Or.inl ha)
    exact ⟨h4, h5⟩
  | some a =>
    cases hadd : env.addDocOk with
    | false =>
      obtain ⟨-, -, -, h4, h5⟩ := initiateCorrectionRequest_failed r env w (Or.inr hadd)
      exact ⟨h4, h5⟩
    | true =>
      obtain ⟨-, h2, -, h4, -, -⟩ := initiateCorrectionRequest_ok r env w a ha hadd
      rw [h] at h2 h4
      exact ⟨by simpa using h4, by simpa using h2⟩

/-- C22 (counterexample): on the mounted component, status `pending`, with a request and an
analysis result in the render, `assignExpert` whose notification post fails sends no
notification and leaves the status `assigned`, not the status before the call. -/
theorem failed_notification_changes_status :
    (mount "u").state.correctionStatus = .pending
      ∧ (assignExpert
          { (mount "u").state with
            analysisResult := some lowAnalysis
            correctionRequest := some ⟨1000, "u", lowAnalysis, .pending, .high, 1801000⟩ }
          { poolEnv with notifyOk := false } juniorExpert (mount "u")).state.correctionStatus
          = .assigned
      ∧ (assignExpert
          { (mount "u").state with
            analysisResult := some lowAnalysis
            correctionRequest := some ⟨1000, "u", lowAnalysis, .pending, .high, 1801000⟩ }
          { poolEnv with notifyOk := false } juniorExpert (mount "u")).notified = [] :=
  ⟨rfl, rfl, rfl⟩

/-- C22 (amended): a failed expert-matching call is caught: `findMatchingExperts` returns the
empty list and the status and selected expert are unchanged, also after the
`initiateCorrectionRequest` that made the call; a failed notification post in `assignExpert`
is caught, no notification is recorded, and the assignment stands: the expert is selected and
the status is `assigned`. -/
theorem external_failures_caught (r : Component) (env : External) (expert : Expert)
    (w : Engine) :
    findMatchingExperts r { env with experts := none } = []
      ∧ (initiateCorrectionRequest r { env with experts := none } w).state.correctionStatus
          = w.state.correctionStatus
      ∧ (initiateCorrectionRequest r { env with experts := none } w).state.selectedExpert
          = w.state.selectedExpert
      ∧ (assignExpert r { env with notifyOk := false } expert w).state.correctionStatus
          = .assigned
      ∧ (assignExpert r { env with notifyOk := false } expert w).state.selectedExpert
          = some expert
      ∧ (assignExpert r { env with notifyOk := false } expert w).notified = w.notified := by
  have hf : findMatchingExperts r { env with experts := none } = [] := by
    unfold findMatchingExperts
    cases r.analysisResult <;> rfl
  obtain ⟨h1, h2⟩ := initiateCorrectionRequest_no_expert r { env with experts := none } w hf
  obtain ⟨a1, a2, -, -, -⟩ := assignExpert_effect r { env with notifyOk := false } expert w
  refine ⟨hf, h1, h2, a2, a1, ?_⟩
  unfold assignExpert
  simp only []
  split <;> simp

/-- C25: for a request started at `s` and an update stamped `u ≥ s`, `updateResponseTime`
sets `responseTime` to `floor((u - s) / 60000)`, the whole minutes elapsed; the indicator
shows "Within Guarantee" (`responseTime ≤ 30`) exactly when `u - s < 1,860,000` ms. -/
theorem responseTime_whole_minutes (w : Engine) (s u : Nat)
    (hs : w.state.requestStartTime = some s) (hu : s ≤ u) :
    (updateResponseTime (some u) w).state.responseTime = some ⌊((u : ℚ) - (s : ℚ)) / 60000⌋
      ∧ (updateResponseTime (some u) w).state.responseTime
          = some (((u - s) / 60000 : Nat) : Int)
      ∧ (withinGuarantee (((u - s) / 60000 : Nat) : Int) = true ↔ u - s < 1860000) := by
  have hfloor : ⌊(((u : Int) - (s : Int) : Int) : ℚ) / (1000 * 60)⌋
      = (((u - s) / 60000 : Nat) : Int) := by
    have h1 : ((u : Int) - (s : Int)) = ((u - s : Nat) : Int) := by omega
    rw [h1]
    have h2 : ((((u - s : Nat) : Int) : ℚ)) / (1000 * 60) = ((u - s : Nat) : ℚ) / ((60000 : Nat) : ℚ) := by
      push_cast; norm_num
    rw [h2, Rat.floor_natCast_div_natCast]
    norm_cast
  have hrt : (updateResponseTime (some u) w).state.responseTime
      = some ⌊(((u : Int) - (s : Int) : Int) : ℚ) / (1000 * 60)⌋ := by
    unfold updateResponseTime
    simp [hs]
  refine ⟨?_, ?_, ?_⟩
  · rw [hrt]
    congr 2
    push_cast
    norm_num
  · rw [hrt, hfloor]
  · unfold withinGuarantee
    simp only [decide_eq_true_eq]
    omega

/-- Witness for C25: started at clock 1000, updated 1,859,999 ms later. -/
theorem responseTime_whole_minutes_witness :
    withinGuarantee (((1860999 - 1000) / 60000 : Nat) : Int) = true
      ↔ 1860999 - 1000 < 1860000 :=
  (responseTime_whole_minutes
    { (mount "u") with state := { (mount "u").state with requestStartTime := some 1000 } }
    1000 1860999 rfl (by decide)).2.2

/-- With the answers of `masterFirstEnv`, the matching returns the master then the senior
expert whenever an analysis result is present. -/
theorem findMatchingExperts_masterFirstEnv (r : Component) :
    findMatchingExperts r masterFirstEnv
      = if r.analysisResult.isSome then [masterExpert, seniorExpert] else [] := by
  unfold findMatchingExperts
  cases r.analysisResult with
  | none => simp
  | some a =>
    simp only [masterFirstEnv, Option.isSome_some, if_true]
    norm_num [masterExpert, seniorExpert]

theorem senior_of_master_pool :
    List.filter (fun expert : Expert => decide (expert.level = ExpertLevel.senior))
      [masterExpert, seniorExpert] = [seniorExpert] := rfl

theorem masterFirstEnv_fields : masterFirstEnv.addDocOk = true ∧ masterFirstEnv.notifyOk = true
    ∧ masterFirstEnv.now = 1000 ∧ masterFirstEnv.startedAt = 1000 := ⟨rfl, rfl, rfl, rfl⟩

/-- C26 (counterexample): the matching service returns the master then the senior expert for
two requests; the master is assigned; at the expiry of the second request's timer
`escalateToSeniorExpert` reassigns to the senior expert, whose level is below the master's.
And with the senior expert alone in the pool and already assigned, the function reassigns to
that same expert. -/
theorem escalation_not_to_higher_tier :
    (runEvents (mount "u")
        [.analysis (some lowAnalysis) masterFirstEnv,
         .analysis (some lowerAnalysis) masterFirstEnv]).state.selectedExpert
        = some masterExpert
      ∧ (runEvents (mount "u")
          [.analysis (some lowAnalysis) masterFirstEnv,
           .analysis (some lowerAnalysis) masterFirstEnv,
           .expiry masterFirstEnv, .expiry masterFirstEnv]).state.selectedExpert
          = some seniorExpert
      ∧ seniorExpert.level.rank < masterExpert.level.rank
      ∧ (escalateToSeniorExpert
          { (mount "u").state with availableExperts := [seniorExpert] } poolEnv
          { (mount "u") with state :=
              { (mount "u").state with
                selectedExpert := some seniorExpert
                correctionStatus := .assigned } }).state.selectedExpert
          = some seniorExpert := by
  refine ⟨?_, ?_, by decide, rfl⟩ <;>
  · norm_num [runEvents, step, mount, onAnalysisResult, lowAnalysis, lowerAnalysis,
      initiateCorrectionRequest, findMatchingExperts_masterFirstEnv, senior_of_master_pool,
      masterFirstEnv_fields, startResponseTimer, assignExpert, addNotification,
      responseTimerCallback, escalateToSeniorExpert]

/-- C26 (amended): whenever `escalateToSeniorExpert` reassigns, the newly assigned expert is
the first expert of level `senior` in the pool the function reads: its level is `senior`
whatever the previously assigned expert, so it is strictly higher than the previous level
exactly when the previous expert was junior. -/
theorem escalation_assigns_first_senior (r : Component) (env : External) (w : Engine)
    (e : Expert)
    (h : r.availableExperts.find? (fun x => decide (x.level = .senior)) = some e) :
    (escalateToSeniorExpert r env w).state.selectedExpert = some e
      ∧ (escalateToSeniorExpert r env w).state.correctionStatus = .assigned
      ∧ e ∈ r.availableExperts
      ∧ e.level = .senior
      ∧ (∀ prev : Expert, w.state.selectedExpert = some prev →
          (prev.level.rank < e.level.rank ↔ prev.level = .junior)) := by
  obtain ⟨h1, h2⟩ := escalateToSeniorExpert_effect r env w
  have hlev : e.level = .senior := by
    have := List.find?_some h
    simpa using this
  refine ⟨by simpa [h] using h1, by simpa [h] using h2, List.mem_of_find?_eq_some h, hlev, ?_⟩
  intro prev _
  rw [hlev]
  cases prev.level <;> simp [ExpertLevel.rank]

/-- Witness for C26 (amended): the pool of the junior then the senior expert, the junior
assigned. -/
theorem escalation_assigns_first_senior_witness :
    (escalateToSeniorExpert
        { (mount "u").state with availableExperts := [juniorExpert, seniorExpert] } poolEnv
        { (mount "u") with state :=
            { (mount "u").state with selectedExpert := some juniorExpert } }).state.selectedExpert
        = some seniorExpert
      ∧ (juniorExpert.level.rank < seniorExpert.level.rank ↔ juniorExpert.level = .junior) :=
  ⟨(escalation_assigns_first_senior
      { (mount "u").state with availableExperts := [juniorExpert, seniorExpert] } poolEnv
      { (mount "u") with state :=
          { (mount "u").state with selectedExpert := some juniorExpert } } seniorExpert rfl).1,
    (escalation_assigns_first_senior
      { (mount "u").state with availableExperts := [juniorExpert, seniorExpert] } poolEnv
      { (mount "u") with state :=
          { (mount "u").state with selectedExpert := some juniorExpert } } seniorExpert
      rfl).2.2.2.2 juniorExpert rfl⟩

end QuranLab
